import Mathlib

/-!
Verification development for the Neo4j checkpoint saver
(`langgraph-checkpoint-neo4j-js`).

The TypeScript sources (`src/base.ts`, `src/saver.ts`, `src/cypher-queries.ts`,
`src/types.ts`) are shallowly embedded here:

* Application values (channel values, metadata) are modelled by `JSValue`,
  a structural model of the JavaScript values the serialization layer
  inspects (`null`, `undefined`, booleans, numbers, strings, arrays,
  plain objects with string keys, and an opaque constructor for
  everything else — class instances with hidden state, functions, ...).
  Numbers are modelled by `Int`; none of the verified properties depend
  on floating-point behaviour.
* The `(type, blob)` string pair stored on a Neo4j node is modelled by
  `StoredPayload`: `.json v` stands for `type = "json"` together with
  `blob = JSON.stringify v`, and `.serde tag data` stands for
  `type = "serde"` together with the `__serde_type__`/`__serde_data__`
  wrapper object holding the hex-encoded bytes.  The JSON text layer is
  an injective codec, so it is represented structurally; the
  wrapper-marker sniffing in `loadCheckpoint`/`loadBlobs` corresponds to
  matching on the `StoredPayload` constructor.
* The external `SerializerProtocol` collaborator (`this.serde`) is an
  opaque parameter (`SerdeFor`); the source calls `dumpsTyped` on
  checkpoints, metadata and channel values, which is modelled by one
  `SerdeFor` field per payload type in `Saver`.
* The Neo4j database is modelled by `Store`: one list per node label and
  one list per relationship type.  Each Cypher statement of
  `cypher-queries.ts` becomes one Lean function on `Store`; a single
  statement is atomic (matching Neo4j auto-commit transactions), the
  multi-statement operations of `saver.ts` are sequences of such steps.
-/

/-- A thread is unique by `(thread_id, checkpoint_ns)`
(constraint `thread_unique` in `cypher-queries.ts`). -/
structure ThreadKey where
  thread_id : String
  checkpoint_ns : String
deriving DecidableEq, Repr

-- Model of the JavaScript values inspected by the serialization layer of
-- `base.ts`.  `vArr`/`vObj` use the mutually inductive list types `JSList`
-- and `JSFields` so that structural recursion over values is available.
mutual

/-- A JavaScript value as seen by `isSimpleJsonSerializable`;
`vOther` stands for functions, symbols and other non-plain values. -/
inductive JSValue where
  | vNull
  | vUndefined
  | vBool (b : Bool)
  | vNum (n : Int)
  | vStr (s : String)
  | vArr (items : JSList)
  | vObj (fields : JSFields)
  | vOther (tag : String)

/-- A JavaScript array of values. -/
inductive JSList where
  | nil
  | cons (hd : JSValue) (tl : JSList)

/-- The own enumerable entries of a JavaScript object (keys are always
strings). -/
inductive JSFields where
  | nil
  | cons (key : String) (val : JSValue) (tl : JSFields)

end

/-- Checkpoint metadata is an arbitrary JSON-like value; the saver never
inspects its structure. -/
abbrev Metadata := JSValue

/-- The result of `serde.dumpsTyped`: the TypeScript code distinguishes
`data instanceof Uint8Array` (bytes) from anything else (a string). -/
inductive SerdeData where
  | bytes (bs : List Nat)
  | str (s : String)

/-- The `(type, blob)` pair persisted on a node: either the direct JSON
path (`type = "json"`, blob is the JSON text of the value) or the opaque
path (`type = "serde"`, blob is the `__serde_type__`/`__serde_data__`
wrapper with hex-encoded bytes). -/
inductive StoredPayload (α : Type) where
  | json (v : α)
  | serde (tag : String) (data : List Nat)

/-- The string written to the node `type` property. -/
def StoredPayload.typeName : StoredPayload α → String
  | .json _ => "json"
  | .serde _ _ => "serde"

/-- One typed view of the external `SerializerProtocol` collaborator:
`dumps` models `dumpsTyped`, `loads` models `loadsTyped`.  `loads` is
total (a decoder may return junk on junk input); its relation to `dumps`
is stated by `SerdeFor.RoundTrips` where a theorem needs it. -/
structure SerdeFor (α : Type) where
  dumps : α → String × SerdeData
  loads : String → List Nat → α

/-- The serializer inverts its own byte encodings (the round-trip contract
of the external collaborator, spec section 6). -/
def SerdeFor.RoundTrips (sd : SerdeFor α) : Prop :=
  ∀ v tag bs, sd.dumps v = (tag, SerdeData.bytes bs) → sd.loads tag bs = v

/-- The LangGraph `Checkpoint` structure, restricted to the fields the
saver reads (`checkpoint.id`, `checkpoint.channel_values ?? {}`,
`checkpoint.channel_versions ?? {}`); an absent optional field is the
empty list.  Channel versions are `string | number` in TypeScript and
both write and read paths pass them through `String(...)`, so they are
modelled as strings. -/
structure Checkpoint where
  v : Nat
  id : String
  ts : String
  channel_values : List (String × JSValue)
  channel_versions : List (String × String)

/-- The saver state holding the three typed views of `this.serde`. -/
structure Saver where
  cpSerde : SerdeFor Checkpoint
  mdSerde : SerdeFor Metadata
  valSerde : SerdeFor JSValue

/-- `RunnableConfig.configurable` restricted to the three keys the saver
reads. -/
structure RunnableConfig where
  thread_id : Option String
  checkpoint_ns : Option String
  checkpoint_id : Option String
deriving DecidableEq, Repr

/-- `ParsedConfig` of `types.ts`. -/
structure ParsedConfig where
  threadId : String
  checkpointNs : String
  checkpointId : Option String
deriving DecidableEq, Repr

/-- Errors surfaced to the caller: a thrown `Error` for a missing
`thread_id` or missing `checkpoint_id`, and a Neo4j uniqueness-constraint
violation (`Neo.ClientError.Schema.ConstraintValidationFailed`), tagged
with the violated constraint name. -/
inductive Err where
  | configurationError (msg : String)
  | missingCheckpointId
  | constraintViolation (constraintName : String)
deriving DecidableEq, Repr

/-- JavaScript truthiness of an optional string: `undefined` and the
empty string are falsy (`if (checkpointId)`, `if (!threadId)`). -/
def truthy : Option String → Bool
  | none => false
  | some s => s ≠ ""

/-- `BaseNeo4jSaver.parseConfig`: `thread_id` is required (and checked by
JS truthiness, so the empty string is also rejected), `checkpoint_ns`
defaults to the empty string. -/
def parseConfig (config : RunnableConfig) : Except Err ParsedConfig :=
  if truthy config.thread_id then
    .ok ⟨config.thread_id.getD "", config.checkpoint_ns.getD "", config.checkpoint_id⟩
  else
    .error (.configurationError "thread_id is required in config.configurable")

mutual

/-- `BaseNeo4jSaver.isSimpleJsonSerializable` (`base.ts` lines 74-88):
`null`/`undefined`, booleans, numbers and strings are JSON-safe; arrays
and objects are JSON-safe when all elements/values are (object keys are
strings by construction, matching `typeof k === "string"`); everything
else is not. -/
def isSimpleJsonSerializable : JSValue → Bool
  | .vNull => true
  | .vUndefined => true
  | .vBool _ => true
  | .vNum _ => true
  | .vStr _ => true
  | .vArr items => isSimpleJsonList items
  | .vObj fields => isSimpleJsonFields fields
  | .vOther _ => false

/-- `value.every((item) => this.isSimpleJsonSerializable(item))`. -/
def isSimpleJsonList : JSList → Bool
  | .nil => true
  | .cons hd tl => isSimpleJsonSerializable hd && isSimpleJsonList tl

/-- `Object.entries(value).every(([k, v]) => typeof k === "string" && ...)`. -/
def isSimpleJsonFields : JSFields → Bool
  | .nil => true
  | .cons _ val tl => isSimpleJsonSerializable val && isSimpleJsonFields tl

end

/-- The shared json/serde encoding decision of `dumpBlobs` and
`dumpWrites`: JSON-safe values take the direct path; otherwise the value
is handed to the serializer and the result stored on the opaque path if
it is bytes, or (defensively, for a serializer returning a string) the
value is stored as plain JSON after all. -/
def encodeValue (S : Saver) (value : JSValue) : StoredPayload JSValue :=
  if isSimpleJsonSerializable value then
    .json value
  else
    match S.valSerde.dumps value with
    | (tag, .bytes bs) => .serde tag bs
    | (_, .str _) => .json value

/-- `loadBlobs`/`loadWrites` decoding of one stored value: the serde
wrapper is recognised structurally (`record.type === "serde" ||
"__serde_type__" in parsed`), otherwise the parsed JSON is the value. -/
def loadValue (S : Saver) : StoredPayload JSValue → JSValue
  | .json v => v
  | .serde tag bs => S.valSerde.loads tag bs

mutual

/-- What survives `JSON.parse(JSON.stringify(v))` of one value: `none`
when the value is dropped entirely (`undefined`, functions, symbols —
`JSON.stringify` returns `undefined` for these). -/
def jsonMangle : JSValue → Option JSValue
  | .vNull => some .vNull
  | .vUndefined => none
  | .vBool b => some (.vBool b)
  | .vNum n => some (.vNum n)
  | .vStr s => some (.vStr s)
  | .vArr items => some (.vArr (jsonMangleList items))
  | .vObj fields => some (.vObj (jsonMangleFields fields))
  | .vOther _ => none

/-- Inside an array, a dropped element is serialized as `null`. -/
def jsonMangleList : JSList → JSList
  | .nil => .nil
  | .cons hd tl => .cons ((jsonMangle hd).getD .vNull) (jsonMangleList tl)

/-- Inside an object, a dropped entry disappears from the output. -/
def jsonMangleFields : JSFields → JSFields
  | .nil => .nil
  | .cons k v tl =>
    match jsonMangle v with
    | none => jsonMangleFields tl
    | some v2 => .cons k v2 (jsonMangleFields tl)

end

/-- What survives `JSON.parse(JSON.stringify(checkpoint))` of a whole
`Checkpoint` object: the scalar fields and the string-valued
`channel_versions` map are JSON-safe and survive unchanged; the entries
of the `channel_values` object are mangled like any object entries. -/
def jsonMangleCheckpoint (cp : Checkpoint) : Checkpoint :=
  { cp with channel_values :=
      (cp.channel_values.filterMap
        (fun kv => (jsonMangle kv.2).map (fun v2 => (kv.1, v2)))) }

/-- `BaseNeo4jSaver.dumpCheckpoint`: serializer bytes are wrapped on the
opaque path, anything else falls back to `JSON.stringify(checkpoint)` —
which is lossy: members of `channel_values` that are `undefined`,
functions or other non-JSON values are dropped or mangled, so the
fallback stores the mangled checkpoint, not the original. -/
def dumpCheckpoint (S : Saver) (checkpoint : Checkpoint) : StoredPayload Checkpoint :=
  match S.cpSerde.dumps checkpoint with
  | (tag, .bytes bs) => .serde tag bs
  | (_, .str _) => .json (jsonMangleCheckpoint checkpoint)

/-- `BaseNeo4jSaver.loadCheckpoint`: the `_type` argument is ignored by
the source; the serde wrapper is recognised by its marker key, which the
structural payload model expresses as constructor matching. -/
def loadCheckpoint (S : Saver) : StoredPayload Checkpoint → Checkpoint
  | .json cp => cp
  | .serde tag bs => S.cpSerde.loads tag bs

/-- `BaseNeo4jSaver.dumpMetadata` (same shape as `dumpCheckpoint`): the
fallback stores `JSON.stringify(metadata)`, i.e. the mangled metadata.
A metadata value dropped outright by `JSON.stringify` (it would return
the `undefined` value, not a string) is modelled as a stored `null`; no
verified property exercises that corner. -/
def dumpMetadata (S : Saver) (metadata : Metadata) : StoredPayload Metadata :=
  match S.mdSerde.dumps metadata with
  | (tag, .bytes bs) => .serde tag bs
  | (_, .str _) => .json ((jsonMangle metadata).getD .vNull)

/-- `BaseNeo4jSaver.loadMetadata`. -/
def loadMetadata (S : Saver) : StoredPayload Metadata → Metadata
  | .json m => m
  | .serde tag bs => S.mdSerde.loads tag bs

/-- `BlobData` of `types.ts` (the `type`/`blob` string pair is carried by
`payload`). -/
structure BlobData where
  channel : String
  version : String
  payload : StoredPayload JSValue

/-- `String(channelVersions[channel] ?? "")`: version lookup used by
`dumpBlobs` (and, through `ChanInv`, the key fact relating stored
channel-state keys to a checkpoint `channel_versions` field). -/
def versionString (channelVersions : List (String × String)) (channel : String) : String :=
  ((channelVersions.find? (fun p => decide (p.1 = channel))).map (·.2)).getD ""

/-- `BaseNeo4jSaver.dumpBlobs` (`base.ts` lines 164-206): one blob per
`channel_values` entry, versioned from `channel_versions`. -/
def dumpBlobs (S : Saver) (channelValues : List (String × JSValue))
    (channelVersions : List (String × String)) : List BlobData :=
  channelValues.map (fun cv =>
    { channel := cv.1
      version := versionString channelVersions cv.1
      payload := encodeValue S cv.2 })

/-- `WriteRecord` of `types.ts`. -/
structure WriteRecord where
  taskId : String
  taskPath : String
  idx : Nat
  channel : String
  payload : StoredPayload JSValue

/-- `BaseNeo4jSaver.dumpWrites`: `idx` is the position in the input
sequence. -/
def dumpWrites (S : Saver) (writes : List (String × JSValue)) (taskId : String)
    (taskPath : String) : List WriteRecord :=
  (writes.enum).map (fun iw =>
    { taskId := taskId
      taskPath := taskPath
      idx := iw.1
      channel := iw.2.1
      payload := encodeValue S iw.2.2 })

/-- A `ChannelState` node, unique by `(channel, version)`
(constraint `channel_state_unique`). -/
structure ChannelStateNode where
  channel : String
  version : String
  payload : StoredPayload JSValue

/-- A `Checkpoint` node, unique by `checkpoint_id`
(constraint `checkpoint_id_unique`).  The `created_at` timestamp is never
read back by the saver and is omitted. -/
structure CheckpointNode where
  checkpoint_id : String
  payload : StoredPayload Checkpoint
  metadata : StoredPayload Metadata

/-- A `Branch` node, unique by `branch_id` (constraint
`branch_id_unique`); `created_at` is omitted (only used for ordering in
the unexposed `CYPHER_LIST_BRANCHES`). -/
structure BranchNode where
  branch_id : String
  name : String
  fork_point_id : Option String

/-- A `PendingWrite` node (exclusively owned by one checkpoint through
its `HAS_WRITE` edge, so it is stored together with that edge in
`Store.hasWrite`). -/
structure WriteNode where
  task_id : String
  task_path : String
  idx : Nat
  channel : String
  payload : StoredPayload JSValue

/-- The graph database: one list per node label, one list per
relationship type.  `ChannelState` nodes are referenced from `HAS_CHANNEL`
edges by their `(channel, version)` key and `Checkpoint`/`Branch` nodes
by their unique id, mirroring how the Cypher statements address them. -/
structure Store where
  threads : List ThreadKey
  checkpoints : List CheckpointNode
  channelStates : List ChannelStateNode
  branches : List BranchNode
  hasCheckpoint : List (ThreadKey × String)
  previous : List (String × String)
  hasChannel : List (String × String × String)
  hasWrite : List (String × WriteNode)
  hasBranch : List (ThreadKey × String)
  activeBranch : List (ThreadKey × String)
  headEdge : List (String × String)
  onBranch : List (String × String)

/-- The empty database. -/
def emptyStore : Store :=
  { threads := [], checkpoints := [], channelStates := [], branches := []
    hasCheckpoint := [], previous := [], hasChannel := [], hasWrite := []
    hasBranch := [], activeBranch := [], headEdge := [], onBranch := [] }

/-- Ids of all `Checkpoint` nodes. -/
def checkpointIds (s : Store) : List String :=
  s.checkpoints.map (·.checkpoint_id)

/-- Ids of all `Branch` nodes. -/
def branchIds (s : Store) : List String :=
  s.branches.map (·.branch_id)

/-- `MATCH (c:Checkpoint {checkpoint_id: $id})`. -/
def findCheckpointNode (s : Store) (cid : String) : Option CheckpointNode :=
  s.checkpoints.find? (fun cn => decide (cn.checkpoint_id = cid))

/-- `MATCH (cs:ChannelState {channel: $channel, version: $version})`. -/
def findChannelState (s : Store) (channel version : String) : Option ChannelStateNode :=
  s.channelStates.find? (fun cs => decide (cs.channel = channel ∧ cs.version = version))

/-- `CYPHER_UPSERT_CHECKPOINT_SIMPLE`: `MERGE` the thread, then `CREATE`
the checkpoint node and its `HAS_CHECKPOINT` edge.  Because the statement
uses `CREATE` (not `MERGE`) for the checkpoint, the unique constraint on
`checkpoint_id` makes the whole statement fail — and roll back, Cypher
statements being atomic — when the id already exists. -/
def upsertCheckpointSimple (s : Store) (tk : ThreadKey) (cid : String)
    (payload : StoredPayload Checkpoint) (metadata : StoredPayload Metadata) :
    Store × Option Err :=
  if cid ∈ checkpointIds s then
    (s, some (.constraintViolation "checkpoint_id_unique"))
  else
    let s1 := if tk ∈ s.threads then s else { s with threads := tk :: s.threads }
    ({ s1 with
        checkpoints := ⟨cid, payload, metadata⟩ :: s1.checkpoints
        hasCheckpoint := (tk, cid) :: s1.hasCheckpoint }, none)

/-- `CYPHER_LINK_PARENT_CHECKPOINT`: `MATCH` child and parent, `MERGE`
the `PREVIOUS` edge.  When either `MATCH` finds nothing the statement
does nothing and reports no error. -/
def linkParentCheckpoint (s : Store) (cid pid : String) : Store :=
  if cid ∈ checkpointIds s ∧ pid ∈ checkpointIds s then
    if (cid, pid) ∈ s.previous then s
    else { s with previous := (cid, pid) :: s.previous }
  else s

/-- `CYPHER_UPSERT_CHANNEL_STATE`: `MATCH` the checkpoint, `MERGE` the
`ChannelState` by `(channel, version)` with `ON CREATE SET` for
`type`/`blob` (an existing node is never overwritten), then `CREATE` a
`HAS_CHANNEL` edge (duplicate edges are possible, matching `CREATE`). -/
def upsertChannelState (s : Store) (cid : String) (b : BlobData) : Store :=
  if cid ∈ checkpointIds s then
    let s1 :=
      match findChannelState s b.channel b.version with
      | some _ => s
      | none => { s with channelStates := ⟨b.channel, b.version, b.payload⟩ :: s.channelStates }
    { s1 with hasChannel := (cid, b.channel, b.version) :: s1.hasChannel }
  else s

/-- `CYPHER_UPSERT_WRITE`: `MATCH` the checkpoint (silently a no-op when
absent), `CREATE` the `PendingWrite` node and its `HAS_WRITE` edge. -/
def upsertWrite (s : Store) (cid : String) (r : WriteRecord) : Store :=
  if cid ∈ checkpointIds s then
    { s with hasWrite := (cid, ⟨r.taskId, r.taskPath, r.idx, r.channel, r.payload⟩) :: s.hasWrite }
  else s

/-- Number of `HAS_BRANCH` edges leaving a thread. -/
def hasBranchCount (s : Store) (tk : ThreadKey) : Nat :=
  (s.hasBranch.filter (fun e => decide (e.1 = tk))).length

/-- Number of `ACTIVE_BRANCH` edges leaving a thread (spec invariant: at
most one at any instant). -/
def activeCount (s : Store) (tk : ThreadKey) : Nat :=
  (s.activeBranch.filter (fun e => decide (e.1 = tk))).length

/-- `CYPHER_THREAD_HAS_BRANCHES`: `none` when the thread node does not
exist (no record returned), otherwise `count(b)` over its `HAS_BRANCH`
edges. -/
def threadHasBranches (s : Store) (tk : ThreadKey) : Option Nat :=
  if tk ∈ s.threads then some (hasBranchCount s tk) else none

/-- `CYPHER_CREATE_MAIN_BRANCH`: guarded by
`WHERE NOT (t)-[:HAS_BRANCH]->()`; creates the `main` branch with
`HAS_BRANCH` and `ACTIVE_BRANCH` edges.  A `branch_id` colliding with an
existing branch violates `branch_id_unique` and the statement rolls
back. -/
def createMainBranch (s : Store) (tk : ThreadKey) (bid : String) : Store × Option Err :=
  if tk ∈ s.threads ∧ hasBranchCount s tk = 0 then
    if bid ∈ branchIds s then
      (s, some (.constraintViolation "branch_id_unique"))
    else
      ({ s with
          branches := ⟨bid, "main", none⟩ :: s.branches
          hasBranch := (tk, bid) :: s.hasBranch
          activeBranch := (tk, bid) :: s.activeBranch }, none)
  else (s, none)

/-- `CYPHER_UPDATE_BRANCH_HEAD`: for every `ACTIVE_BRANCH` row of the
thread, delete the branch old `HEAD` edges, then — if the checkpoint
resolves — `CREATE` the new `HEAD` edge and `MERGE` the `ON_BRANCH`
edge.  The `DELETE` persists even when the checkpoint `MATCH` later
drops the row, matching Cypher clause pipelining. -/
def advanceHeadStep (cid : String) (acc : Store) (b : String) : Store :=
  let acc1 := { acc with headEdge := acc.headEdge.filter (fun e => decide (e.1 ≠ b)) }
  match findCheckpointNode acc1 cid with
  | none => acc1
  | some _ =>
    let acc2 := { acc1 with headEdge := (b, cid) :: acc1.headEdge }
    if (cid, b) ∈ acc2.onBranch then acc2
    else { acc2 with onBranch := (cid, b) :: acc2.onBranch }

/-- `CYPHER_UPDATE_BRANCH_HEAD` (continued): one `advanceHeadStep` per
`ACTIVE_BRANCH` row of the thread. -/
def updateBranchHead (s : Store) (tk : ThreadKey) (cid : String) : Store :=
  if tk ∈ s.threads then
    let bs := ((s.activeBranch.filter (fun e => decide (e.1 = tk))).map (·.2)).filter
      (fun b => decide (b ∈ branchIds s))
    bs.foldl (advanceHeadStep cid) s
  else s

/-- `CheckpointRecord` of `types.ts`: the row shape shared by
`CYPHER_GET_CHECKPOINT_BY_ID`, `CYPHER_GET_LATEST_CHECKPOINT`,
`CYPHER_GET_ACTIVE_BRANCH_HEAD` and `CYPHER_LIST_CHECKPOINTS`. -/
structure CheckpointRecord where
  thread_id : String
  checkpoint_ns : String
  checkpoint_id : String
  parent_checkpoint_id : Option String
  payload : StoredPayload Checkpoint
  metadata : StoredPayload Metadata

/-- Builds the row for one matched checkpoint, including the
`OPTIONAL MATCH (c)-[:PREVIOUS]->(parent)` column. -/
def recordOfNode (s : Store) (tk : ThreadKey) (cn : CheckpointNode) : CheckpointRecord :=
  { thread_id := tk.thread_id
    checkpoint_ns := tk.checkpoint_ns
    checkpoint_id := cn.checkpoint_id
    parent_checkpoint_id :=
      (s.previous.find? (fun e => decide (e.1 = cn.checkpoint_id))).map (·.2)
    payload := cn.payload
    metadata := cn.metadata }

/-- `CYPHER_GET_CHECKPOINT_BY_ID`: thread node, `HAS_CHECKPOINT` edge and
checkpoint node must all match. -/
def getCheckpointByIdQ (s : Store) (tk : ThreadKey) (cid : String) : Option CheckpointRecord :=
  if tk ∈ s.threads ∧ (tk, cid) ∈ s.hasCheckpoint then
    (findCheckpointNode s cid).map (recordOfNode s tk)
  else none

/-- The checkpoints of one thread (`MATCH (t ...)-[:HAS_CHECKPOINT]->(c)`). -/
def threadCheckpoints (s : Store) (tk : ThreadKey) : List CheckpointNode :=
  s.checkpoints.filter (fun cn => decide ((tk, cn.checkpoint_id) ∈ s.hasCheckpoint))

/-- `ORDER BY c.checkpoint_id DESC` as a sorting relation. -/
def ckDesc (a b : CheckpointNode) : Prop :=
  b.checkpoint_id ≤ a.checkpoint_id

instance : DecidableRel ckDesc := fun a b =>
  inferInstanceAs (Decidable (b.checkpoint_id ≤ a.checkpoint_id))

instance : IsTotal CheckpointNode ckDesc :=
  ⟨fun a b => le_total b.checkpoint_id a.checkpoint_id⟩

instance : IsTrans CheckpointNode ckDesc :=
  ⟨fun _ _ _ hab hbc => le_trans hbc hab⟩

/-- `ORDER BY c.checkpoint_id DESC` (Neo4j compares strings
lexicographically, as does the `String` linear order used here). -/
def sortByIdDesc (l : List CheckpointNode) : List CheckpointNode :=
  List.insertionSort ckDesc l

/-- `CYPHER_GET_LATEST_CHECKPOINT`: the thread checkpoint with the
greatest `checkpoint_id` (`ORDER BY ... DESC LIMIT 1`). -/
def getLatestCheckpointQ (s : Store) (tk : ThreadKey) : Option CheckpointRecord :=
  if tk ∈ s.threads then
    (sortByIdDesc (threadCheckpoints s tk)).head?.map (recordOfNode s tk)
  else none

/-- `CYPHER_GET_ACTIVE_BRANCH_HEAD`: follow
`(t)-[:ACTIVE_BRANCH]->(b)-[:HEAD]->(c)`. -/
def getActiveBranchHeadQ (s : Store) (tk : ThreadKey) : Option CheckpointRecord :=
  if tk ∈ s.threads then
    match s.activeBranch.find? (fun e => decide (e.1 = tk)) with
    | none => none
    | some e =>
      if e.2 ∈ branchIds s then
        match s.headEdge.find? (fun h => decide (h.1 = e.2)) with
        | none => none
        | some h => (findCheckpointNode s h.2).map (recordOfNode s tk)
      else none
  else none

/-- `CYPHER_GET_CHANNEL_STATES`: rows are the `ChannelState` nodes linked
from the checkpoint by `HAS_CHANNEL` whose channel is in `$channels` AND
whose version is in `$versions` (the two `IN` filters are independent —
the statement does not pair a channel with its own version). -/
def getChannelStatesQ (s : Store) (cid : String) (channels versions : List String) :
    List ChannelStateNode :=
  s.channelStates.filter (fun cs =>
    decide ((cid, cs.channel, cs.version) ∈ s.hasChannel) &&
    decide (cs.channel ∈ channels) && decide (cs.version ∈ versions))

/-- `ORDER BY w.idx` as a sorting relation. -/
def wIdxLe (a b : WriteNode) : Prop := a.idx ≤ b.idx

instance : DecidableRel wIdxLe := fun a b =>
  inferInstanceAs (Decidable (a.idx ≤ b.idx))

/-- `CYPHER_GET_WRITES`: the pending writes of a checkpoint, ordered by
`idx` ascending. -/
def getWritesQ (s : Store) (cid : String) : List WriteNode :=
  List.insertionSort wIdxLe ((s.hasWrite.filter (fun e => decide (e.1 = cid))).map (·.2))

/-- `CYPHER_LIST_CHECKPOINTS`: the thread checkpoints, optionally
restricted to ids strictly below `$before_id`, ordered by id descending
and capped at `$limit`. -/
def listCheckpointsQ (s : Store) (tk : ThreadKey) (beforeId : Option String)
    (limit : Nat) : List CheckpointRecord :=
  if tk ∈ s.threads then
    let matched := (threadCheckpoints s tk).filter (fun cn =>
      match beforeId with
      | none => true
      | some b => decide (cn.checkpoint_id < b))
    ((sortByIdDesc matched).take limit).map (recordOfNode s tk)
  else []

/-- `CYPHER_DELETE_THREAD`: `DETACH DELETE` of every thread node with the
given `thread_id` (note: the statement does not filter on
`checkpoint_ns`), the checkpoints they own, the pending writes of those
checkpoints and the branches of those threads; all edges incident to a
deleted node disappear with it. -/
def deleteThreadQ (s : Store) (tid : String) : Store :=
  let deadThreads := s.threads.filter (fun tk => decide (tk.thread_id = tid))
  let deadCks := (s.checkpoints.filter (fun cn =>
    decide (∃ tk ∈ deadThreads, (tk, cn.checkpoint_id) ∈ s.hasCheckpoint))).map
      (·.checkpoint_id)
  let deadBranches := (s.branches.filter (fun b =>
    decide (∃ tk ∈ deadThreads, (tk, b.branch_id) ∈ s.hasBranch))).map (·.branch_id)
  { threads := s.threads.filter (fun tk => decide (tk.thread_id ≠ tid))
    checkpoints := s.checkpoints.filter (fun cn => decide (cn.checkpoint_id ∉ deadCks))
    channelStates := s.channelStates
    branches := s.branches.filter (fun b => decide (b.branch_id ∉ deadBranches))
    hasCheckpoint := s.hasCheckpoint.filter (fun e =>
      decide (e.1.thread_id ≠ tid ∧ e.2 ∉ deadCks))
    previous := s.previous.filter (fun e => decide (e.1 ∉ deadCks ∧ e.2 ∉ deadCks))
    hasChannel := s.hasChannel.filter (fun e => decide (e.1 ∉ deadCks))
    hasWrite := s.hasWrite.filter (fun e => decide (e.1 ∉ deadCks))
    hasBranch := s.hasBranch.filter (fun e =>
      decide (e.1.thread_id ≠ tid ∧ e.2 ∉ deadBranches))
    activeBranch := s.activeBranch.filter (fun e =>
      decide (e.1.thread_id ≠ tid ∧ e.2 ∉ deadBranches))
    headEdge := s.headEdge.filter (fun e => decide (e.1 ∉ deadBranches ∧ e.2 ∉ deadCks))
    onBranch := s.onBranch.filter (fun e => decide (e.1 ∉ deadCks ∧ e.2 ∉ deadBranches)) }

/-- `CYPHER_DELETE_ORPHAN_CHANNEL_STATES`: delete every `ChannelState`
with no incoming `HAS_CHANNEL` edge. -/
def deleteOrphanChannelStatesQ (s : Store) : Store :=
  { s with channelStates := s.channelStates.filter (fun cs =>
      decide (∃ e ∈ s.hasChannel, e.2.1 = cs.channel ∧ e.2.2 = cs.version)) }

/-- JavaScript object assignment `channelValues[record.channel] = value`
on an association list: replace in place when the key exists, append
otherwise. -/
def objInsert (l : List (String × JSValue)) (k : String) (v : JSValue) :
    List (String × JSValue) :=
  match l with
  | [] => [(k, v)]
  | (k1, v1) :: tl =>
    if k1 = k then (k1, v) :: tl else (k1, v1) :: objInsert tl k v

/-- `BaseNeo4jSaver.loadBlobs`: fold the fetched rows into a channel-name
to value mapping (a later row for the same channel overwrites an earlier
one, matching object assignment). -/
def loadBlobs (S : Saver) (blobRecords : List ChannelStateNode) :
    List (String × JSValue) :=
  blobRecords.foldl (fun acc r => objInsert acc r.channel (loadValue S r.payload)) []

/-- `BaseNeo4jSaver.loadWrites`: `(taskId, channel, value)` triples. -/
def loadWrites (S : Saver) (writeRecords : List WriteNode) :
    List (String × String × JSValue) :=
  writeRecords.map (fun r => (r.task_id, r.channel, loadValue S r.payload))

/-- `CheckpointTuple` as assembled by `makeCheckpointTuple`. -/
structure CheckpointTuple where
  config : RunnableConfig
  checkpoint : Checkpoint
  metadata : Metadata
  parentConfig : Option RunnableConfig
  pendingWrites : List (String × String × JSValue)

/-- `BaseNeo4jSaver.makeCheckpointTuple`: deserializes checkpoint and
metadata from the record and builds the configs.  The separately fetched
channel values are ignored (the `_channelValues` parameter is unused in
the source), and `if (parent_checkpoint_id)` uses JS truthiness, so an
empty-string parent id yields no parent config. -/
def makeCheckpointTuple (S : Saver) (checkpointRecord : CheckpointRecord)
    (_channelValues : List (String × JSValue))
    (pendingWrites : List (String × String × JSValue)) : CheckpointTuple :=
  { config := ⟨some checkpointRecord.thread_id, some checkpointRecord.checkpoint_ns,
      some checkpointRecord.checkpoint_id⟩
    checkpoint := loadCheckpoint S checkpointRecord.payload
    metadata := loadMetadata S checkpointRecord.metadata
    parentConfig :=
      if truthy checkpointRecord.parent_checkpoint_id then
        checkpointRecord.parent_checkpoint_id.map (fun pid =>
          ⟨some checkpointRecord.thread_id, some checkpointRecord.checkpoint_ns, some pid⟩)
      else none
    pendingWrites := pendingWrites }

/-- `Neo4jSaver.put` (`saver.ts` lines 181-270).  The `_newVersions`
argument is unused in the source; the versions stored with the channel
states come from `checkpoint.channel_versions`.  `newBranchId` models the
`crypto.randomUUID()` drawn for a possible main-branch creation.  The
returned store reflects the steps executed before a failing statement
(there is no multi-statement transaction); a failing statement itself
changes nothing. -/
def putM (S : Saver) (config : RunnableConfig) (checkpoint : Checkpoint)
    (metadata : Metadata) (_newVersions : List (String × String))
    (newBranchId : String) (s : Store) : Store × Except Err RunnableConfig :=
  match parseConfig config with
  | .error e => (s, .error e)
  | .ok pc =>
    let tk : ThreadKey := ⟨pc.threadId, pc.checkpointNs⟩
    let checkpointId := checkpoint.id
    let serializedCheckpoint := dumpCheckpoint S checkpoint
    let serializedMetadata := dumpMetadata S metadata
    match upsertCheckpointSimple s tk checkpointId serializedCheckpoint serializedMetadata with
    | (s1, some e) => (s1, .error e)
    | (s1, none) =>
      let s2 :=
        if truthy pc.checkpointId then
          linkParentCheckpoint s1 checkpointId (pc.checkpointId.getD "")
        else s1
      let blobs := dumpBlobs S checkpoint.channel_values checkpoint.channel_versions
      let s3 := blobs.foldl (fun acc b => upsertChannelState acc checkpointId b) s2
      let afterBranch :=
        if threadHasBranches s3 tk = some 0 then createMainBranch s3 tk newBranchId
        else (s3, none)
      match afterBranch with
      | (s4, some e) => (s4, .error e)
      | (s4, none) =>
        let s5 := updateBranchHead s4 tk checkpointId
        (s5, .ok ⟨some pc.threadId, some pc.checkpointNs, some checkpointId⟩)

/-- `Neo4jSaver.putWrites` (`saver.ts` lines 275-300): requires a truthy
`checkpoint_id` in the config, then creates one `PendingWrite` per
entry. -/
def putWritesM (S : Saver) (config : RunnableConfig)
    (writes : List (String × JSValue)) (taskId : String) (s : Store) :
    Store × Option Err :=
  match parseConfig config with
  | .error e => (s, some e)
  | .ok pc =>
    if truthy pc.checkpointId then
      let cid := pc.checkpointId.getD ""
      let writeRecords := dumpWrites S writes taskId ""
      (writeRecords.foldl (fun acc r => upsertWrite acc cid r) s, none)
    else (s, some .missingCheckpointId)

/-- `Neo4jSaver.getTuple` (`saver.ts` lines 305-397): an exact id query
when a truthy `checkpoint_id` is given, otherwise the active branch head
with a fallback to the latest checkpoint; then channel states (fetched
and decoded, though `makeCheckpointTuple` drops them) and pending
writes. -/
def getTupleM (S : Saver) (config : RunnableConfig) (s : Store) :
    Except Err (Option CheckpointTuple) :=
  match parseConfig config with
  | .error e => .error e
  | .ok pc =>
    let tk : ThreadKey := ⟨pc.threadId, pc.checkpointNs⟩
    let recOpt :=
      if truthy pc.checkpointId then
        getCheckpointByIdQ s tk (pc.checkpointId.getD "")
      else
        match getActiveBranchHeadQ s tk with
        | some r => some r
        | none => getLatestCheckpointQ s tk
    match recOpt with
    | none => .ok none
    | some checkpointRecord =>
      let checkpoint := loadCheckpoint S checkpointRecord.payload
      let channelVersions := checkpoint.channel_versions
      let channelValues :=
        if channelVersions.length > 0 then
          let channels := channelVersions.map (·.1)
          let versions := channelVersions.map (·.2)
          loadBlobs S (getChannelStatesQ s checkpointRecord.checkpoint_id channels versions)
        else []
      let pendingWrites := loadWrites S (getWritesQ s checkpointRecord.checkpoint_id)
      .ok (some (makeCheckpointTuple S checkpointRecord channelValues pendingWrites))

/-- `Neo4jSaver.list` (`saver.ts` lines 402-442): materialised as the
list of yielded tuples.  `before` is parsed with `parseConfig` (so it
must itself carry a `thread_id`), the limit defaults to 100, and the
yielded tuples carry no channel values and no pending writes. -/
def listM (S : Saver) (config : RunnableConfig) (before : Option RunnableConfig)
    (limit : Option Nat) (s : Store) : Except Err (List CheckpointTuple) :=
  match parseConfig config with
  | .error e => .error e
  | .ok pc =>
    let beforeId : Except Err (Option String) :=
      match before with
      | none => .ok none
      | some b =>
        match parseConfig b with
        | .error e => .error e
        | .ok pb => .ok pb.checkpointId
    match beforeId with
    | .error e => .error e
    | .ok bid =>
      let limitN := limit.getD 100
      .ok ((listCheckpointsQ s ⟨pc.threadId, pc.checkpointNs⟩ bid limitN).map
        (fun r => makeCheckpointTuple S r [] []))

/-- `Neo4jSaver.deleteThread` (`saver.ts` lines 447-455): cascade delete
followed by orphan `ChannelState` cleanup. -/
def deleteThreadM (s : Store) (threadId : String) : Store :=
  deleteOrphanChannelStatesQ (deleteThreadQ s threadId)

/-- One caller-facing operation of the `Neo4jSaver` API. -/
inductive Op where
  | opPut (config : RunnableConfig) (checkpoint : Checkpoint) (metadata : Metadata)
      (newVersions : List (String × String)) (newBranchId : String)
  | opPutWrites (config : RunnableConfig) (writes : List (String × JSValue)) (taskId : String)
  | opGetTuple (config : RunnableConfig)
  | opList (config : RunnableConfig) (before : Option RunnableConfig) (limit : Option Nat)
  | opDeleteThread (threadId : String)

/-- The store after one caller-facing operation (reads leave the store
unchanged; failed writes leave the steps already executed). -/
def applyOp (S : Saver) (s : Store) : Op → Store
  | .opPut config checkpoint metadata newVersions newBranchId =>
    (putM S config checkpoint metadata newVersions newBranchId s).1
  | .opPutWrites config writes taskId => (putWritesM S config writes taskId s).1
  | .opGetTuple _ => s
  | .opList _ _ _ => s
  | .opDeleteThread threadId => deleteThreadM s threadId

/-- The stores reachable from the empty store by caller-facing
operations. -/
inductive Reachable (S : Saver) : Store → Prop where
  | empty : Reachable S emptyStore
  | step {s : Store} (op : Op) : Reachable S s → Reachable S (applyOp S s op)

/-! ### Field-projection lemmas for the single-statement steps -/

theorem linkParentCheckpoint_threads (s : Store) (cid pid : String) :
    (linkParentCheckpoint s cid pid).threads = s.threads := by
  unfold linkParentCheckpoint
  split
  · split <;> rfl
  · rfl

theorem linkParentCheckpoint_checkpoints (s : Store) (cid pid : String) :
    (linkParentCheckpoint s cid pid).checkpoints = s.checkpoints := by
  unfold linkParentCheckpoint
  split
  · split <;> rfl
  · rfl

theorem linkParentCheckpoint_hasCheckpoint (s : Store) (cid pid : String) :
    (linkParentCheckpoint s cid pid).hasCheckpoint = s.hasCheckpoint := by
  unfold linkParentCheckpoint
  split
  · split <;> rfl
  · rfl

theorem linkParentCheckpoint_channelStates (s : Store) (cid pid : String) :
    (linkParentCheckpoint s cid pid).channelStates = s.channelStates := by
  unfold linkParentCheckpoint
  split
  · split <;> rfl
  · rfl

theorem linkParentCheckpoint_hasChannel (s : Store) (cid pid : String) :
    (linkParentCheckpoint s cid pid).hasChannel = s.hasChannel := by
  unfold linkParentCheckpoint
  split
  · split <;> rfl
  · rfl

theorem linkParentCheckpoint_branches (s : Store) (cid pid : String) :
    (linkParentCheckpoint s cid pid).branches = s.branches := by
  unfold linkParentCheckpoint
  split
  · split <;> rfl
  · rfl

theorem linkParentCheckpoint_hasBranch (s : Store) (cid pid : String) :
    (linkParentCheckpoint s cid pid).hasBranch = s.hasBranch := by
  unfold linkParentCheckpoint
  split
  · split <;> rfl
  · rfl

theorem linkParentCheckpoint_activeBranch (s : Store) (cid pid : String) :
    (linkParentCheckpoint s cid pid).activeBranch = s.activeBranch := by
  unfold linkParentCheckpoint
  split
  · split <;> rfl
  · rfl

theorem upsertChannelState_threads (s : Store) (cid : String) (b : BlobData) :
    (upsertChannelState s cid b).threads = s.threads := by
  unfold upsertChannelState
  split
  · split <;> rfl
  · rfl

theorem upsertChannelState_checkpoints (s : Store) (cid : String) (b : BlobData) :
    (upsertChannelState s cid b).checkpoints = s.checkpoints := by
  unfold upsertChannelState
  split
  · split <;> rfl
  · rfl

theorem upsertChannelState_hasCheckpoint (s : Store) (cid : String) (b : BlobData) :
    (upsertChannelState s cid b).hasCheckpoint = s.hasCheckpoint := by
  unfold upsertChannelState
  split
  · split <;> rfl
  · rfl

theorem upsertChannelState_previous (s : Store) (cid : String) (b : BlobData) :
    (upsertChannelState s cid b).previous = s.previous := by
  unfold upsertChannelState
  split
  · split <;> rfl
  · rfl

theorem upsertChannelState_branches (s : Store) (cid : String) (b : BlobData) :
    (upsertChannelState s cid b).branches = s.branches := by
  unfold upsertChannelState
  split
  · split <;> rfl
  · rfl

theorem upsertChannelState_hasBranch (s : Store) (cid : String) (b : BlobData) :
    (upsertChannelState s cid b).hasBranch = s.hasBranch := by
  unfold upsertChannelState
  split
  · split <;> rfl
  · rfl

theorem upsertChannelState_activeBranch (s : Store) (cid : String) (b : BlobData) :
    (upsertChannelState s cid b).activeBranch = s.activeBranch := by
  unfold upsertChannelState
  split
  · split <;> rfl
  · rfl

theorem createMainBranch_threads (s : Store) (tk : ThreadKey) (bid : String) :
    (createMainBranch s tk bid).1.threads = s.threads := by
  unfold createMainBranch
  split
  · split <;> rfl
  · rfl

theorem createMainBranch_checkpoints (s : Store) (tk : ThreadKey) (bid : String) :
    (createMainBranch s tk bid).1.checkpoints = s.checkpoints := by
  unfold createMainBranch
  split
  · split <;> rfl
  · rfl

theorem createMainBranch_hasCheckpoint (s : Store) (tk : ThreadKey) (bid : String) :
    (createMainBranch s tk bid).1.hasCheckpoint = s.hasCheckpoint := by
  unfold createMainBranch
  split
  · split <;> rfl
  · rfl

theorem createMainBranch_previous (s : Store) (tk : ThreadKey) (bid : String) :
    (createMainBranch s tk bid).1.previous = s.previous := by
  unfold createMainBranch
  split
  · split <;> rfl
  · rfl

theorem createMainBranch_channelStates (s : Store) (tk : ThreadKey) (bid : String) :
    (createMainBranch s tk bid).1.channelStates = s.channelStates := by
  unfold createMainBranch
  split
  · split <;> rfl
  · rfl

theorem createMainBranch_hasChannel (s : Store) (tk : ThreadKey) (bid : String) :
    (createMainBranch s tk bid).1.hasChannel = s.hasChannel := by
  unfold createMainBranch
  split
  · split <;> rfl
  · rfl

theorem advanceHeadStep_threads (cid : String) (acc : Store) (b : String) :
    (advanceHeadStep cid acc b).threads = acc.threads := by
  unfold advanceHeadStep
  dsimp only
  split
  · rfl
  · split <;> rfl

theorem advanceHeadStep_checkpoints (cid : String) (acc : Store) (b : String) :
    (advanceHeadStep cid acc b).checkpoints = acc.checkpoints := by
  unfold advanceHeadStep
  dsimp only
  split
  · rfl
  · split <;> rfl

theorem advanceHeadStep_hasCheckpoint (cid : String) (acc : Store) (b : String) :
    (advanceHeadStep cid acc b).hasCheckpoint = acc.hasCheckpoint := by
  unfold advanceHeadStep
  dsimp only
  split
  · rfl
  · split <;> rfl

theorem advanceHeadStep_previous (cid : String) (acc : Store) (b : String) :
    (advanceHeadStep cid acc b).previous = acc.previous := by
  unfold advanceHeadStep
  dsimp only
  split
  · rfl
  · split <;> rfl

theorem advanceHeadStep_channelStates (cid : String) (acc : Store) (b : String) :
    (advanceHeadStep cid acc b).channelStates = acc.channelStates := by
  unfold advanceHeadStep
  dsimp only
  split
  · rfl
  · split <;> rfl

theorem advanceHeadStep_hasChannel (cid : String) (acc : Store) (b : String) :
    (advanceHeadStep cid acc b).hasChannel = acc.hasChannel := by
  unfold advanceHeadStep
  dsimp only
  split
  · rfl
  · split <;> rfl

theorem advanceHeadStep_branches (cid : String) (acc : Store) (b : String) :
    (advanceHeadStep cid acc b).branches = acc.branches := by
  unfold advanceHeadStep
  dsimp only
  split
  · rfl
  · split <;> rfl

theorem advanceHeadStep_hasBranch (cid : String) (acc : Store) (b : String) :
    (advanceHeadStep cid acc b).hasBranch = acc.hasBranch := by
  unfold advanceHeadStep
  dsimp only
  split
  · rfl
  · split <;> rfl

theorem advanceHeadStep_activeBranch (cid : String) (acc : Store) (b : String) :
    (advanceHeadStep cid acc b).activeBranch = acc.activeBranch := by
  unfold advanceHeadStep
  dsimp only
  split
  · rfl
  · split <;> rfl

theorem advanceHeadStep_hasWrite (cid : String) (acc : Store) (b : String) :
    (advanceHeadStep cid acc b).hasWrite = acc.hasWrite := by
  unfold advanceHeadStep
  dsimp only
  split
  · rfl
  · split <;> rfl

theorem upsertWrite_threads (s : Store) (cid : String) (r : WriteRecord) :
    (upsertWrite s cid r).threads = s.threads := by
  unfold upsertWrite
  split <;> rfl

theorem upsertWrite_checkpoints (s : Store) (cid : String) (r : WriteRecord) :
    (upsertWrite s cid r).checkpoints = s.checkpoints := by
  unfold upsertWrite
  split <;> rfl

theorem upsertWrite_hasChannel (s : Store) (cid : String) (r : WriteRecord) :
    (upsertWrite s cid r).hasChannel = s.hasChannel := by
  unfold upsertWrite
  split <;> rfl

theorem upsertWrite_hasBranch (s : Store) (cid : String) (r : WriteRecord) :
    (upsertWrite s cid r).hasBranch = s.hasBranch := by
  unfold upsertWrite
  split <;> rfl

theorem upsertWrite_activeBranch (s : Store) (cid : String) (r : WriteRecord) :
    (upsertWrite s cid r).activeBranch = s.activeBranch := by
  unfold upsertWrite
  split <;> rfl

theorem foldlUpsertCS_threads (cid : String) (l : List BlobData) (s : Store) :
    (l.foldl (fun acc b => upsertChannelState acc cid b) s).threads = s.threads := by
  induction l generalizing s with
  | nil => rfl
  | cons b tl ih => rw [List.foldl_cons, ih, upsertChannelState_threads]

theorem foldlUpsertCS_checkpoints (cid : String) (l : List BlobData) (s : Store) :
    (l.foldl (fun acc b => upsertChannelState acc cid b) s).checkpoints = s.checkpoints := by
  induction l generalizing s with
  | nil => rfl
  | cons b tl ih => rw [List.foldl_cons, ih, upsertChannelState_checkpoints]

theorem foldlUpsertCS_hasCheckpoint (cid : String) (l : List BlobData) (s : Store) :
    (l.foldl (fun acc b => upsertChannelState acc cid b) s).hasCheckpoint = s.hasCheckpoint := by
  induction l generalizing s with
  | nil => rfl
  | cons b tl ih => rw [List.foldl_cons, ih, upsertChannelState_hasCheckpoint]

theorem foldlUpsertCS_previous (cid : String) (l : List BlobData) (s : Store) :
    (l.foldl (fun acc b => upsertChannelState acc cid b) s).previous = s.previous := by
  induction l generalizing s with
  | nil => rfl
  | cons b tl ih => rw [List.foldl_cons, ih, upsertChannelState_previous]

theorem foldlUpsertCS_branches (cid : String) (l : List BlobData) (s : Store) :
    (l.foldl (fun acc b => upsertChannelState acc cid b) s).branches = s.branches := by
  induction l generalizing s with
  | nil => rfl
  | cons b tl ih => rw [List.foldl_cons, ih, upsertChannelState_branches]

theorem foldlUpsertCS_hasBranch (cid : String) (l : List BlobData) (s : Store) :
    (l.foldl (fun acc b => upsertChannelState acc cid b) s).hasBranch = s.hasBranch := by
  induction l generalizing s with
  | nil => rfl
  | cons b tl ih => rw [List.foldl_cons, ih, upsertChannelState_hasBranch]

theorem foldlUpsertCS_activeBranch (cid : String) (l : List BlobData) (s : Store) :
    (l.foldl (fun acc b => upsertChannelState acc cid b) s).activeBranch = s.activeBranch := by
  induction l generalizing s with
  | nil => rfl
  | cons b tl ih => rw [List.foldl_cons, ih, upsertChannelState_activeBranch]

theorem foldlAdvance_threads (cid : String) (l : List String) (s : Store) :
    (l.foldl (advanceHeadStep cid) s).threads = s.threads := by
  induction l generalizing s with
  | nil => rfl
  | cons b tl ih => rw [List.foldl_cons, ih, advanceHeadStep_threads]

theorem foldlAdvance_checkpoints (cid : String) (l : List String) (s : Store) :
    (l.foldl (advanceHeadStep cid) s).checkpoints = s.checkpoints := by
  induction l generalizing s with
  | nil => rfl
  | cons b tl ih => rw [List.foldl_cons, ih, advanceHeadStep_checkpoints]

theorem foldlAdvance_hasCheckpoint (cid : String) (l : List String) (s : Store) :
    (l.foldl (advanceHeadStep cid) s).hasCheckpoint = s.hasCheckpoint := by
  induction l generalizing s with
  | nil => rfl
  | cons b tl ih => rw [List.foldl_cons, ih, advanceHeadStep_hasCheckpoint]

theorem foldlAdvance_previous (cid : String) (l : List String) (s : Store) :
    (l.foldl (advanceHeadStep cid) s).previous = s.previous := by
  induction l generalizing s with
  | nil => rfl
  | cons b tl ih => rw [List.foldl_cons, ih, advanceHeadStep_previous]

theorem foldlAdvance_channelStates (cid : String) (l : List String) (s : Store) :
    (l.foldl (advanceHeadStep cid) s).channelStates = s.channelStates := by
  induction l generalizing s with
  | nil => rfl
  | cons b tl ih => rw [List.foldl_cons, ih, advanceHeadStep_channelStates]

theorem foldlAdvance_hasChannel (cid : String) (l : List String) (s : Store) :
    (l.foldl (advanceHeadStep cid) s).hasChannel = s.hasChannel := by
  induction l generalizing s with
  | nil => rfl
  | cons b tl ih => rw [List.foldl_cons, ih, advanceHeadStep_hasChannel]

theorem foldlAdvance_branches (cid : String) (l : List String) (s : Store) :
    (l.foldl (advanceHeadStep cid) s).branches = s.branches := by
  induction l generalizing s with
  | nil => rfl
  | cons b tl ih => rw [List.foldl_cons, ih, advanceHeadStep_branches]

theorem foldlAdvance_hasBranch (cid : String) (l : List String) (s : Store) :
    (l.foldl (advanceHeadStep cid) s).hasBranch = s.hasBranch := by
  induction l generalizing s with
  | nil => rfl
  | cons b tl ih => rw [List.foldl_cons, ih, advanceHeadStep_hasBranch]

theorem foldlAdvance_activeBranch (cid : String) (l : List String) (s : Store) :
    (l.foldl (advanceHeadStep cid) s).activeBranch = s.activeBranch := by
  induction l generalizing s with
  | nil => rfl
  | cons b tl ih => rw [List.foldl_cons, ih, advanceHeadStep_activeBranch]

theorem foldlAdvance_hasWrite (cid : String) (l : List String) (s : Store) :
    (l.foldl (advanceHeadStep cid) s).hasWrite = s.hasWrite := by
  induction l generalizing s with
  | nil => rfl
  | cons b tl ih => rw [List.foldl_cons, ih, advanceHeadStep_hasWrite]

theorem updateBranchHead_threads (s : Store) (tk : ThreadKey) (cid : String) :
    (updateBranchHead s tk cid).threads = s.threads := by
  unfold updateBranchHead
  split
  · exact foldlAdvance_threads cid _ s
  · rfl

theorem updateBranchHead_checkpoints (s : Store) (tk : ThreadKey) (cid : String) :
    (updateBranchHead s tk cid).checkpoints = s.checkpoints := by
  unfold updateBranchHead
  split
  · exact foldlAdvance_checkpoints cid _ s
  · rfl

theorem updateBranchHead_hasCheckpoint (s : Store) (tk : ThreadKey) (cid : String) :
    (updateBranchHead s tk cid).hasCheckpoint = s.hasCheckpoint := by
  unfold updateBranchHead
  split
  · exact foldlAdvance_hasCheckpoint cid _ s
  · rfl

theorem updateBranchHead_previous (s : Store) (tk : ThreadKey) (cid : String) :
    (updateBranchHead s tk cid).previous = s.previous := by
  unfold updateBranchHead
  split
  · exact foldlAdvance_previous cid _ s
  · rfl

theorem updateBranchHead_channelStates (s : Store) (tk : ThreadKey) (cid : String) :
    (updateBranchHead s tk cid).channelStates = s.channelStates := by
  unfold updateBranchHead
  split
  · exact foldlAdvance_channelStates cid _ s
  · rfl

theorem updateBranchHead_hasChannel (s : Store) (tk : ThreadKey) (cid : String) :
    (updateBranchHead s tk cid).hasChannel = s.hasChannel := by
  unfold updateBranchHead
  split
  · exact foldlAdvance_hasChannel cid _ s
  · rfl

theorem updateBranchHead_branches (s : Store) (tk : ThreadKey) (cid : String) :
    (updateBranchHead s tk cid).branches = s.branches := by
  unfold updateBranchHead
  split
  · exact foldlAdvance_branches cid _ s
  · rfl

theorem updateBranchHead_hasBranch (s : Store) (tk : ThreadKey) (cid : String) :
    (updateBranchHead s tk cid).hasBranch = s.hasBranch := by
  unfold updateBranchHead
  split
  · exact foldlAdvance_hasBranch cid _ s
  · rfl

theorem updateBranchHead_activeBranch (s : Store) (tk : ThreadKey) (cid : String) :
    (updateBranchHead s tk cid).activeBranch = s.activeBranch := by
  unfold updateBranchHead
  split
  · exact foldlAdvance_activeBranch cid _ s
  · rfl

theorem updateBranchHead_hasWrite (s : Store) (tk : ThreadKey) (cid : String) :
    (updateBranchHead s tk cid).hasWrite = s.hasWrite := by
  unfold updateBranchHead
  split
  · exact foldlAdvance_hasWrite cid _ s
  · rfl

theorem upsertCheckpointSimple_ok (s : Store) (tk : ThreadKey) (cid : String)
    (pay : StoredPayload Checkpoint) (mdp : StoredPayload Metadata)
    (h : cid ∉ checkpointIds s) :
    (upsertCheckpointSimple s tk cid pay mdp).2 = none ∧
    (upsertCheckpointSimple s tk cid pay mdp).1.threads =
      (if tk ∈ s.threads then s.threads else tk :: s.threads) ∧
    (upsertCheckpointSimple s tk cid pay mdp).1.checkpoints = ⟨cid, pay, mdp⟩ :: s.checkpoints ∧
    (upsertCheckpointSimple s tk cid pay mdp).1.hasCheckpoint = (tk, cid) :: s.hasCheckpoint ∧
    (upsertCheckpointSimple s tk cid pay mdp).1.previous = s.previous ∧
    (upsertCheckpointSimple s tk cid pay mdp).1.channelStates = s.channelStates ∧
    (upsertCheckpointSimple s tk cid pay mdp).1.hasChannel = s.hasChannel ∧
    (upsertCheckpointSimple s tk cid pay mdp).1.branches = s.branches ∧
    (upsertCheckpointSimple s tk cid pay mdp).1.hasBranch = s.hasBranch ∧
    (upsertCheckpointSimple s tk cid pay mdp).1.activeBranch = s.activeBranch := by
  unfold upsertCheckpointSimple
  rw [if_neg h]
  refine ⟨rfl, ?_, ?_, ?_, ?_, ?_, ?_, ?_, ?_, ?_⟩ <;> (dsimp only; split <;> rfl)

theorem createMainBranch_noErr (s : Store) (tk : ThreadKey) (bid : String)
    (h : bid ∉ branchIds s) : (createMainBranch s tk bid).2 = none := by
  unfold createMainBranch
  split <;> (try rfl)

theorem parseConfig_ok (cfg : RunnableConfig) (tid : String)
    (h1 : cfg.thread_id = some tid) (htid : tid ≠ "") :
    parseConfig cfg = .ok ⟨tid, cfg.checkpoint_ns.getD "", cfg.checkpoint_id⟩ := by
  simp [parseConfig, truthy, h1, htid]

theorem putM_ok (S : Saver) (cfg : RunnableConfig) (cp : Checkpoint) (md : Metadata)
    (nv : List (String × String)) (bid : String) (s : Store) (tid : String)
    (h1 : cfg.thread_id = some tid) (htid : tid ≠ "")
    (h2 : cp.id ∉ checkpointIds s) (h3 : bid ∉ branchIds s) :
    ∃ s5,
      putM S cfg cp md nv bid s =
        (s5, .ok ⟨some tid, some (cfg.checkpoint_ns.getD ""), some cp.id⟩) ∧
      (⟨tid, cfg.checkpoint_ns.getD ""⟩ : ThreadKey) ∈ s5.threads ∧
      s5.checkpoints = ⟨cp.id, dumpCheckpoint S cp, dumpMetadata S md⟩ :: s.checkpoints ∧
      ((⟨tid, cfg.checkpoint_ns.getD ""⟩ : ThreadKey), cp.id) ∈ s5.hasCheckpoint := by
  have hparse := parseConfig_ok cfg tid h1 htid
  rcases hE : upsertCheckpointSimple s ⟨tid, cfg.checkpoint_ns.getD ""⟩ cp.id
      (dumpCheckpoint S cp) (dumpMetadata S md) with ⟨s1, err⟩
  obtain ⟨e0, ht, hc, hhc, _, _, _, hb, _, _⟩ :=
    upsertCheckpointSimple_ok s ⟨tid, cfg.checkpoint_ns.getD ""⟩ cp.id
      (dumpCheckpoint S cp) (dumpMetadata S md) h2
  rw [hE] at e0 ht hc hhc hb
  simp only at e0 ht hc hhc hb
  cases err with
  | some e => exact absurd e0 (by simp)
  | none =>
  unfold putM
  rw [hparse]
  dsimp only
  rw [hE]
  dsimp only
  set tk : ThreadKey := (⟨tid, cfg.checkpoint_ns.getD ""⟩ : ThreadKey) with htk
  set s2 := (if truthy cfg.checkpoint_id = true then
      linkParentCheckpoint s1 cp.id (cfg.checkpoint_id.getD "") else s1) with hs2
  set s3 := List.foldl (fun acc b => upsertChannelState acc cp.id b) s2
      (dumpBlobs S cp.channel_values cp.channel_versions) with hs3
  have ht2 : s2.threads = s1.threads := by
    rw [hs2]; split
    · exact linkParentCheckpoint_threads _ _ _
    · rfl
  have hc2 : s2.checkpoints = s1.checkpoints := by
    rw [hs2]; split
    · exact linkParentCheckpoint_checkpoints _ _ _
    · rfl
  have hhc2 : s2.hasCheckpoint = s1.hasCheckpoint := by
    rw [hs2]; split
    · exact linkParentCheckpoint_hasCheckpoint _ _ _
    · rfl
  have hb2 : s2.branches = s1.branches := by
    rw [hs2]; split
    · exact linkParentCheckpoint_branches _ _ _
    · rfl
  have ht3 : s3.threads = s2.threads := foldlUpsertCS_threads _ _ _
  have hc3 : s3.checkpoints = s2.checkpoints := foldlUpsertCS_checkpoints _ _ _
  have hhc3 : s3.hasCheckpoint = s2.hasCheckpoint := foldlUpsertCS_hasCheckpoint _ _ _
  have hb3 : s3.branches = s2.branches := foldlUpsertCS_branches _ _ _
  have hbid3 : bid ∉ branchIds s3 := by
    unfold branchIds at h3 ⊢
    rw [hb3, hb2, hb]
    exact h3
  rcases hE2 : (if threadHasBranches s3 tk = some 0 then createMainBranch s3 tk bid
      else (s3, none)) with ⟨s4, e4⟩
  have he4 : e4 = none := by
    have hx : (if threadHasBranches s3 tk = some 0 then createMainBranch s3 tk bid
        else (s3, none)).2 = none := by
      split
      · exact createMainBranch_noErr _ _ _ hbid3
      · rfl
    rw [hE2] at hx
    exact hx
  subst he4
  have h4eq : s4 = (if threadHasBranches s3 tk = some 0 then createMainBranch s3 tk bid
      else (s3, none)).1 := by rw [hE2]
  have h41 : s4.threads = s3.threads := by
    rw [h4eq]; split
    · exact createMainBranch_threads _ _ _
    · rfl
  have h42 : s4.checkpoints = s3.checkpoints := by
    rw [h4eq]; split
    · exact createMainBranch_checkpoints _ _ _
    · rfl
  have h43 : s4.hasCheckpoint = s3.hasCheckpoint := by
    rw [h4eq]; split
    · exact createMainBranch_hasCheckpoint _ _ _
    · rfl
  dsimp only
  refine ⟨updateBranchHead s4 tk cp.id, rfl, ?_, ?_, ?_⟩
  · rw [updateBranchHead_threads, h41, ht3, ht2, ht]
    split
    · assumption
    · exact List.mem_cons_self _ _
  · rw [updateBranchHead_checkpoints, h42, hc3, hc2, hc]
  · rw [updateBranchHead_hasCheckpoint, h43, hhc3, hhc2, hhc]
    exact List.mem_cons_self _ _

theorem loadCheckpoint_dump_of_bytes (S : Saver) (hrt : S.cpSerde.RoundTrips)
    (cp : Checkpoint) (tag : String) (bs : List Nat)
    (hd : S.cpSerde.dumps cp = (tag, SerdeData.bytes bs)) :
    loadCheckpoint S (dumpCheckpoint S cp) = cp := by
  unfold dumpCheckpoint loadCheckpoint
  rw [hd]
  exact hrt cp tag bs hd

theorem loadMetadata_dump_of_bytes (S : Saver) (hrt : S.mdSerde.RoundTrips)
    (md : Metadata) (tag : String) (bs : List Nat)
    (hd : S.mdSerde.dumps md = (tag, SerdeData.bytes bs)) :
    loadMetadata S (dumpMetadata S md) = md := by
  unfold dumpMetadata loadMetadata
  rw [hd]
  exact hrt md tag bs hd

theorem loadCheckpoint_dump_channel_versions (S : Saver)
    (hrt : S.cpSerde.RoundTrips) (cp : Checkpoint) :
    (loadCheckpoint S (dumpCheckpoint S cp)).channel_versions =
      cp.channel_versions := by
  unfold dumpCheckpoint loadCheckpoint
  rcases h : S.cpSerde.dumps cp with ⟨tag, data⟩
  cases data with
  | bytes bs => exact congrArg Checkpoint.channel_versions (hrt cp tag bs h)
  | str t => rfl

/-- **C1.** For every checkpoint stored via `put` on a store in a
consistent state (thread id present and non-empty, checkpoint id
non-empty and not already stored, fresh branch id), provided the
external serializer honours its declared interface on the two values
written — `dumpsTyped` returns bytes for the checkpoint and for the
metadata (spec section 6) and the serializer round-trips its own byte
encodings — a subsequent `getTuple` with the same thread id, namespace
and that exact checkpoint id returns a defined tuple whose decoded
checkpoint payload and decoded metadata are equal to the checkpoint and
metadata passed to `put`; the channel values inside the returned
checkpoint (`tup.checkpoint.channel_values`) are therefore also equal
to those passed in (round-trip law).  The bytes hypotheses are needed:
when `dumpsTyped` returns a non-`Uint8Array`, `dumpCheckpoint` and
`dumpMetadata` fall back to `JSON.stringify`, which mangles
non-JSON-safe members, and the round trip fails. -/
theorem C1_put_getTuple_roundTrip (S : Saver) (cfg : RunnableConfig) (cp : Checkpoint)
    (md : Metadata) (nv : List (String × String)) (bid : String) (s : Store) (tid : String)
    (hrtCp : S.cpSerde.RoundTrips) (hrtMd : S.mdSerde.RoundTrips)
    (hcpBytes : ∃ tag bs, S.cpSerde.dumps cp = (tag, SerdeData.bytes bs))
    (hmdBytes : ∃ tag bs, S.mdSerde.dumps md = (tag, SerdeData.bytes bs))
    (h1 : cfg.thread_id = some tid) (htid : tid ≠ "") (hcpid : cp.id ≠ "")
    (h2 : cp.id ∉ checkpointIds s) (h3 : bid ∉ branchIds s) :
    ∃ s5 tup,
      putM S cfg cp md nv bid s =
        (s5, .ok ⟨some tid, some (cfg.checkpoint_ns.getD ""), some cp.id⟩) ∧
      getTupleM S ⟨some tid, some (cfg.checkpoint_ns.getD ""), some cp.id⟩ s5 =
        .ok (some tup) ∧
      tup.checkpoint = cp ∧ tup.metadata = md := by
  obtain ⟨s5, hput, hmem, hckpts, hedge⟩ := putM_ok S cfg cp md nv bid s tid h1 htid h2 h3
  have hfind : findCheckpointNode s5 cp.id =
      some ⟨cp.id, dumpCheckpoint S cp, dumpMetadata S md⟩ := by
    rw [findCheckpointNode, hckpts]
    simp [List.find?]
  have hget : ∃ tup,
      getTupleM S ⟨some tid, some (cfg.checkpoint_ns.getD ""), some cp.id⟩ s5 =
        .ok (some tup) ∧ tup.checkpoint = cp ∧ tup.metadata = md := by
    have hparse2 : parseConfig ⟨some tid, some (cfg.checkpoint_ns.getD ""), some cp.id⟩ =
        .ok ⟨tid, cfg.checkpoint_ns.getD "", some cp.id⟩ := by
      simp [parseConfig, truthy, htid]
    unfold getTupleM
    rw [hparse2]
    dsimp only
    rw [if_pos (show truthy (some cp.id) = true by simp [truthy, hcpid])]
    unfold getCheckpointByIdQ
    simp only [Option.getD_some]
    rw [if_pos ⟨hmem, hedge⟩, hfind]
    refine ⟨_, rfl, ?_, ?_⟩
    · obtain ⟨tagc, bsc, hdc⟩ := hcpBytes
      exact loadCheckpoint_dump_of_bytes S hrtCp cp tagc bsc hdc
    · obtain ⟨tagm, bsm, hdm⟩ := hmdBytes
      exact loadMetadata_dump_of_bytes S hrtMd md tagm bsm hdm
  obtain ⟨tup, hg, hck, hmd⟩ := hget
  exact ⟨s5, tup, hput, hg, hck, hmd⟩

/-- **C10.** For every config, checkpoint and metadata, and for any two
values of the `newVersions` (`channelVersions`) argument, `put` performs
identical store writes and returns the same result: the `_newVersions`
parameter of `Neo4jSaver.put` is unused, and the versions attached to
stored `ChannelState` nodes are taken solely from the checkpoint own
`channel_versions` field (second conjunct). -/
theorem C10_newVersions_no_influence (S : Saver) (config : RunnableConfig)
    (checkpoint : Checkpoint) (metadata : Metadata)
    (nv1 nv2 : List (String × String)) (newBranchId : String) (s : Store) :
    putM S config checkpoint metadata nv1 newBranchId s =
      putM S config checkpoint metadata nv2 newBranchId s ∧
    ∀ b ∈ dumpBlobs S checkpoint.channel_values checkpoint.channel_versions,
      b.version = versionString checkpoint.channel_versions b.channel := by
  refine ⟨rfl, ?_⟩
  intro b hb
  rw [dumpBlobs, List.mem_map] at hb
  obtain ⟨cv, _, rfl⟩ := hb
  rfl

/-- A concrete serializer for `Checkpoint` whose `dumps` returns a
non-byte payload; used to instantiate theorems on closed inputs (its
byte round-trip property holds vacuously). -/
def strSerdeCp : SerdeFor Checkpoint :=
  ⟨fun _ => ("t", .str ""), fun _ _ => ⟨1, "", "", [], []⟩⟩

/-- A concrete serializer for `JSValue` with a non-byte `dumps`. -/
def strSerdeVal : SerdeFor JSValue :=
  ⟨fun _ => ("t", .str ""), fun _ _ => .vNull⟩

/-- The concrete saver used by witnesses. -/
def saverEx : Saver := ⟨strSerdeCp, strSerdeVal, strSerdeVal⟩

theorem strSerdeCp_roundTrips : strSerdeCp.RoundTrips := by
  intro v tag bs h
  exact absurd (congrArg Prod.snd h) (by simp [strSerdeCp])

theorem strSerdeVal_roundTrips : strSerdeVal.RoundTrips := by
  intro v tag bs h
  exact absurd (congrArg Prod.snd h) (by simp [strSerdeVal])

/-- A concrete config addressing thread `t1` in the default namespace. -/
def cfgEx : RunnableConfig := ⟨some "t1", some "", none⟩

/-- A concrete checkpoint with one channel value and its version. -/
def cpEx : Checkpoint := ⟨1, "c1", "ts1", [("ch", .vStr "hello")], [("ch", "v1")]⟩

/-- Concrete metadata. -/
def mdEx : Metadata := .vObj (.cons "step" (.vNum 1) .nil)

/-- Recogniser for the `channel_values` of `cpEx`, used by the C1
witness serializer to decide when to return bytes. -/
def isHelloCV : List (String × JSValue) → Bool
  | [(k, .vStr s)] => k = "ch" && s = "hello"
  | _ => false

theorem isHelloCV_eq (l : List (String × JSValue)) (h : isHelloCV l = true) :
    l = [("ch", JSValue.vStr "hello")] := by
  unfold isHelloCV at h
  split at h
  next k s =>
    simp only [Bool.and_eq_true, decide_eq_true_eq] at h
    rw [h.1, h.2]
  next => simp at h

/-- Recogniser for `cpEx` itself. -/
def isCpExShape (cp : Checkpoint) : Bool :=
  decide (cp.v = 1) && decide (cp.id = "c1") && decide (cp.ts = "ts1") &&
    isHelloCV cp.channel_values && decide (cp.channel_versions = [("ch", "v1")])

theorem isCpExShape_eq (cp : Checkpoint) (h : isCpExShape cp = true) : cp = cpEx := by
  obtain ⟨v, i, ts, cvs, vers⟩ := cp
  unfold isCpExShape at h
  simp only [Bool.and_eq_true, decide_eq_true_eq] at h
  obtain ⟨⟨⟨⟨h1, h2⟩, h3⟩, h4⟩, h5⟩ := h
  subst h1 h2 h3 h5
  rw [show cpEx = ⟨1, "c1", "ts1", [("ch", JSValue.vStr "hello")], [("ch", "v1")]⟩ from rfl,
    isHelloCV_eq cvs h4]

/-- Recogniser for `mdEx`. -/
def isStepMd : Metadata → Bool
  | .vObj (.cons k (.vNum n) .nil) => k = "step" && n = 1
  | _ => false

theorem isStepMd_eq (m : Metadata) (h : isStepMd m = true) :
    m = .vObj (.cons "step" (.vNum 1) .nil) := by
  unfold isStepMd at h
  split at h
  next k n =>
    simp only [Bool.and_eq_true, decide_eq_true_eq] at h
    rw [h.1, h.2]
  next => simp at h

/-- A checkpoint serializer honouring the declared interface on `cpEx`:
it returns bytes for `cpEx` and its `loads` inverts that encoding, so
its round-trip property is exercised non-vacuously; on every other
checkpoint it returns a string (and is therefore never on the byte
path there). -/
def exCpSerde : SerdeFor Checkpoint where
  dumps := fun cp => if isCpExShape cp then ("t", .bytes [0]) else ("t", .str "")
  loads := fun _ _ => cpEx

theorem exCpSerde_roundTrips : exCpSerde.RoundTrips := by
  intro v tag bs h
  unfold exCpSerde at h
  dsimp only at h
  split at h
  next hc =>
    show cpEx = v
    exact (isCpExShape_eq v hc).symm
  next => exact absurd (congrArg Prod.snd h) (by simp)

/-- A metadata serializer honouring the declared interface on `mdEx`. -/
def exMdSerde : SerdeFor Metadata where
  dumps := fun md => if isStepMd md then ("t", .bytes [0]) else ("t", .str "")
  loads := fun _ _ => .vObj (.cons "step" (.vNum 1) .nil)

theorem exMdSerde_roundTrips : exMdSerde.RoundTrips := by
  intro v tag bs h
  unfold exMdSerde at h
  dsimp only at h
  split at h
  next hc =>
    show JSValue.vObj (.cons "step" (.vNum 1) .nil) = v
    exact (isStepMd_eq v hc).symm
  next => exact absurd (congrArg Prod.snd h) (by simp)

/-- The saver used by the C1 witness: byte-returning, round-tripping
serializers for the checkpoint and metadata written there. -/
def saverC1 : Saver := ⟨exCpSerde, exMdSerde, strSerdeVal⟩

/-- Witness for C1 on closed inputs: `saverC1.cpSerde` and
`saverC1.mdSerde` return bytes for `cpEx` and `mdEx` and invert them,
so every hypothesis — including the round-trip ones — holds
non-vacuously. -/
theorem C1_witness :
    ∃ s5 tup,
      putM saverC1 cfgEx cpEx mdEx [] "b1" emptyStore =
        (s5, .ok ⟨some "t1", some "", some "c1"⟩) ∧
      getTupleM saverC1 ⟨some "t1", some "", some "c1"⟩ s5 = .ok (some tup) ∧
      tup.checkpoint = cpEx ∧ tup.metadata = mdEx :=
  C1_put_getTuple_roundTrip saverC1 cfgEx cpEx mdEx [] "b1" emptyStore "t1"
    exCpSerde_roundTrips exMdSerde_roundTrips
    ⟨"t", [0], by rfl⟩ ⟨"t", [0], by rfl⟩
    rfl (by decide) (by decide)
    (by simp [checkpointIds, emptyStore]) (by simp [branchIds, emptyStore])

/-- Witness for C10 on closed inputs. -/
theorem C10_witness :
    putM saverEx cfgEx cpEx mdEx [("ch", "v7")] "b1" emptyStore =
      putM saverEx cfgEx cpEx mdEx [] "b1" emptyStore ∧
    ∀ b ∈ dumpBlobs saverEx cpEx.channel_values cpEx.channel_versions,
      b.version = versionString cpEx.channel_versions b.channel :=
  C10_newVersions_no_influence saverEx cfgEx cpEx mdEx [("ch", "v7")] [] "b1" emptyStore

/-- **C3.** The spec claims a `put` retried with the same checkpoint id
succeeds because duplicate-id constraint violations are treated as
already done.  The code disagrees: `CYPHER_UPSERT_CHECKPOINT_SIMPLE` —
despite its name and its "Create/update" doc comment — uses `CREATE`,
so the retry surfaces the `checkpoint_id_unique` constraint violation to
the caller (and performs no further step).  This theorem evaluates the
model at the failing input: a second `put` of checkpoint `c1` after a
successful first `put` of `c1`. -/
theorem C3_retry_with_same_id_fails :
    (putM saverEx cfgEx cpEx mdEx [] "b2"
        (putM saverEx cfgEx cpEx mdEx [] "b1" emptyStore).1).2 =
      .error (.constraintViolation "checkpoint_id_unique") ∧
    (putM saverEx cfgEx cpEx mdEx [] "b2"
        (putM saverEx cfgEx cpEx mdEx [] "b1" emptyStore).1).1 =
      (putM saverEx cfgEx cpEx mdEx [] "b1" emptyStore).1 := by
  constructor <;> rfl

theorem linkParentCheckpoint_not_found (s : Store) (cid pid : String)
    (h : pid ∉ checkpointIds s) : linkParentCheckpoint s cid pid = s := by
  unfold linkParentCheckpoint
  rw [if_neg (fun hc => h hc.2)]

/-- Counterexample to **C4** as stated: a `put` whose config carries the
parent checkpoint id `missing`, which resolves to no stored checkpoint,
completes with an ok result — no `ParentNotFoundError` (no such error
exists anywhere in the code) — and the new checkpoint has no `PREVIOUS`
link. -/
theorem C4_counterexample :
    (putM saverEx ⟨some "t1", some "", some "missing"⟩ cpEx mdEx [] "b1" emptyStore).2 =
      .ok ⟨some "t1", some "", some "c1"⟩ ∧
    (putM saverEx ⟨some "t1", some "", some "missing"⟩ cpEx mdEx [] "b1"
        emptyStore).1.previous = [] := by
  constructor <;> rfl

/-- **C4** (amended).  For every `put` whose config carries a parent
checkpoint id that does not resolve to an existing checkpoint (and that
is not the id of the checkpoint being written), `put` completes
successfully and leaves the new checkpoint without a `PREVIOUS` link:
`CYPHER_LINK_PARENT_CHECKPOINT` silently matches nothing, no
`ParentNotFoundError` is raised. -/
theorem C4_missing_parent_is_silent (S : Saver) (cfg : RunnableConfig) (cp : Checkpoint)
    (md : Metadata) (nv : List (String × String)) (bid : String) (s : Store)
    (tid pid : String)
    (h1 : cfg.thread_id = some tid) (htid : tid ≠ "")
    (hp : cfg.checkpoint_id = some pid) (hpt : pid ≠ "")
    (h2 : cp.id ∉ checkpointIds s) (h3 : bid ∉ branchIds s)
    (hpabs : pid ∉ checkpointIds s) (hpne : pid ≠ cp.id) :
    ∃ s5,
      putM S cfg cp md nv bid s =
        (s5, .ok ⟨some tid, some (cfg.checkpoint_ns.getD ""), some cp.id⟩) ∧
      s5.previous = s.previous := by
  have hparse := parseConfig_ok cfg tid h1 htid
  rcases hE : upsertCheckpointSimple s ⟨tid, cfg.checkpoint_ns.getD ""⟩ cp.id
      (dumpCheckpoint S cp) (dumpMetadata S md) with ⟨s1, err⟩
  obtain ⟨e0, ht, hc, hhc, hprev, _, _, hb, _, _⟩ :=
    upsertCheckpointSimple_ok s ⟨tid, cfg.checkpoint_ns.getD ""⟩ cp.id
      (dumpCheckpoint S cp) (dumpMetadata S md) h2
  rw [hE] at e0 ht hc hhc hprev hb
  simp only at e0 ht hc hhc hprev hb
  cases err with
  | some e => exact absurd e0 (by simp)
  | none =>
  unfold putM
  rw [hparse]
  dsimp only
  rw [hE]
  dsimp only
  set tk : ThreadKey := (⟨tid, cfg.checkpoint_ns.getD ""⟩ : ThreadKey) with htk
  rw [hp]
  have htr : truthy (some pid) = true := by simp [truthy, hpt]
  rw [if_pos htr]
  have hlink : linkParentCheckpoint s1 cp.id ((some pid).getD "") = s1 := by
    rw [Option.getD_some]
    refine linkParentCheckpoint_not_found s1 cp.id pid ?_
    rw [checkpointIds, hc]
    simp only [List.map_cons, List.mem_cons]
    rintro (hx | hx)
    · exact hpne hx
    · exact hpabs hx
  rw [hlink]
  set s3 := List.foldl (fun acc b => upsertChannelState acc cp.id b) s1
      (dumpBlobs S cp.channel_values cp.channel_versions) with hs3
  have hp3 : s3.previous = s1.previous := foldlUpsertCS_previous _ _ _
  have hb3 : s3.branches = s1.branches := foldlUpsertCS_branches _ _ _
  have hbid3 : bid ∉ branchIds s3 := by
    unfold branchIds at h3 ⊢
    rw [hb3, hb]
    exact h3
  rcases hE2 : (if threadHasBranches s3 tk = some 0 then createMainBranch s3 tk bid
      else (s3, none)) with ⟨s4, e4⟩
  have he4 : e4 = none := by
    have hx : (if threadHasBranches s3 tk = some 0 then createMainBranch s3 tk bid
        else (s3, none)).2 = none := by
      split
      · exact createMainBranch_noErr _ _ _ hbid3
      · rfl
    rw [hE2] at hx
    exact hx
  subst he4
  have h4eq : s4 = (if threadHasBranches s3 tk = some 0 then createMainBranch s3 tk bid
      else (s3, none)).1 := by rw [hE2]
  have h44 : s4.previous = s3.previous := by
    rw [h4eq]; split
    · exact createMainBranch_previous _ _ _
    · rfl
  dsimp only
  refine ⟨updateBranchHead s4 tk cp.id, rfl, ?_⟩
  rw [updateBranchHead_previous, h44, hp3, hprev]

/-- Witness for the amended C4 on closed inputs. -/
theorem C4_witness :
    ∃ s5,
      putM saverEx ⟨some "t1", some "", some "missing"⟩ cpEx mdEx [] "b1" emptyStore =
        (s5, .ok ⟨some "t1", some "", some "c1"⟩) ∧
      s5.previous = emptyStore.previous :=
  C4_missing_parent_is_silent saverEx ⟨some "t1", some "", some "missing"⟩ cpEx mdEx []
    "b1" emptyStore "t1" "missing" rfl (by decide) rfl (by decide)
    (by simp [checkpointIds, emptyStore]) (by simp [branchIds, emptyStore])
    (by simp [checkpointIds, emptyStore]) (by decide)

/-- The method surface of the `Neo4jSaver` class (`saver.ts`): the static
factory, the lifecycle methods and the five checkpointer operations
(`getSession` is `private` and excluded).  No branch operation is a
method of the class; the branch Cypher statements are only exported as
raw strings via `export * from "./cypher-queries.js"`. -/
def neo4jSaverMethods : List String :=
  ["fromConnString", "close", "setup", "put", "putWrites", "getTuple", "list",
    "deleteThread"]

/-- The named exports of `cypher-queries.ts`. -/
def cypherQueryExports : List String :=
  ["CYPHER_CREATE_THREAD_CONSTRAINT", "CYPHER_CREATE_CHECKPOINT_CONSTRAINT",
    "CYPHER_CREATE_CHANNEL_STATE_CONSTRAINT", "CYPHER_CREATE_BRANCH_CONSTRAINT",
    "CYPHER_CREATE_CHECKPOINT_ID_INDEX", "CYPHER_CREATE_CHECKPOINT_CREATED_INDEX",
    "CYPHER_CREATE_BRANCH_NAME_INDEX", "CYPHER_UPSERT_CHECKPOINT_SIMPLE",
    "CYPHER_LINK_PARENT_CHECKPOINT", "CYPHER_UPSERT_CHANNEL_STATE",
    "CYPHER_UPSERT_WRITE", "CYPHER_GET_CHECKPOINT_BY_ID",
    "CYPHER_GET_LATEST_CHECKPOINT", "CYPHER_GET_CHANNEL_STATES",
    "CYPHER_GET_WRITES", "CYPHER_LIST_CHECKPOINTS", "CYPHER_DELETE_THREAD",
    "CYPHER_DELETE_ORPHAN_CHANNEL_STATES", "CYPHER_CREATE_MAIN_BRANCH",
    "CYPHER_CREATE_BRANCH", "CYPHER_SET_ACTIVE_BRANCH", "CYPHER_UPDATE_BRANCH_HEAD",
    "CYPHER_GET_ACTIVE_BRANCH_HEAD", "CYPHER_THREAD_HAS_BRANCHES",
    "CYPHER_LIST_BRANCHES", "CYPHER_GET_ACTIVE_BRANCH",
    "CYPHER_GET_CHECKPOINT_TREE", "CYPHER_DELETE_BRANCH"]

/-- Counterexample to **C5** as stated: none of `createBranch`,
`setActiveBranch`, `listBranches`, `deleteBranch` is a method a caller
can invoke on `Neo4jSaver` (consequently no `BranchNotFoundError` can be
raised — no such error class exists in the code). -/
theorem C5_counterexample :
    "createBranch" ∉ neo4jSaverMethods ∧ "setActiveBranch" ∉ neo4jSaverMethods ∧
    "listBranches" ∉ neo4jSaverMethods ∧ "deleteBranch" ∉ neo4jSaverMethods := by
  decide

/-- **C5** (amended).  The caller-facing API provides `put`, `putWrites`,
`getTuple`, `list` and `deleteThread` (plus `setup`, `close` and the
`fromConnString` factory); the branch operations exist only as exported
Cypher query strings (`CYPHER_CREATE_BRANCH`, `CYPHER_SET_ACTIVE_BRANCH`,
`CYPHER_LIST_BRANCHES`, `CYPHER_DELETE_BRANCH`), not as invokable
methods. -/
theorem C5_api_surface :
    ("put" ∈ neo4jSaverMethods ∧ "putWrites" ∈ neo4jSaverMethods ∧
      "getTuple" ∈ neo4jSaverMethods ∧ "list" ∈ neo4jSaverMethods ∧
      "deleteThread" ∈ neo4jSaverMethods ∧ "setup" ∈ neo4jSaverMethods ∧
      "close" ∈ neo4jSaverMethods ∧ "fromConnString" ∈ neo4jSaverMethods) ∧
    ("CYPHER_CREATE_BRANCH" ∈ cypherQueryExports ∧
      "CYPHER_SET_ACTIVE_BRANCH" ∈ cypherQueryExports ∧
      "CYPHER_LIST_BRANCHES" ∈ cypherQueryExports ∧
      "CYPHER_DELETE_BRANCH" ∈ cypherQueryExports) := by
  decide

mutual

/-- Modelled from the spec (section 4.1): a value is JSON-safe if it is
null, boolean, number, string, or a composite (sequence/mapping)
composed recursively of JSON-safe values with only string keys.  Note:
the spec wording does not admit `undefined`. -/
inductive SpecJsonSafe : JSValue → Prop where
  | safeNull : SpecJsonSafe .vNull
  | safeBool (b : Bool) : SpecJsonSafe (.vBool b)
  | safeNum (n : Int) : SpecJsonSafe (.vNum n)
  | safeStr (s : String) : SpecJsonSafe (.vStr s)
  | safeArr (items : JSList) : SpecJsonSafeList items → SpecJsonSafe (.vArr items)
  | safeObj (fields : JSFields) : SpecJsonSafeFields fields → SpecJsonSafe (.vObj fields)

/-- All elements of the sequence are JSON-safe. -/
inductive SpecJsonSafeList : JSList → Prop where
  | nil : SpecJsonSafeList .nil
  | cons {hd : JSValue} {tl : JSList} :
      SpecJsonSafe hd → SpecJsonSafeList tl → SpecJsonSafeList (.cons hd tl)

/-- All values of the mapping are JSON-safe (keys are strings by
construction). -/
inductive SpecJsonSafeFields : JSFields → Prop where
  | nil : SpecJsonSafeFields .nil
  | cons (key : String) {val : JSValue} {tl : JSFields} :
      SpecJsonSafe val → SpecJsonSafeFields tl → SpecJsonSafeFields (.cons key val tl)

end

mutual

/-- The amended spec predicate: JSON-safe exactly when the value is null
**or undefined**, a boolean, a number, a string, or a sequence/mapping
composed recursively of such values with only string keys. -/
inductive SpecJsonSafeA : JSValue → Prop where
  | safeNull : SpecJsonSafeA .vNull
  | safeUndefined : SpecJsonSafeA .vUndefined
  | safeBool (b : Bool) : SpecJsonSafeA (.vBool b)
  | safeNum (n : Int) : SpecJsonSafeA (.vNum n)
  | safeStr (s : String) : SpecJsonSafeA (.vStr s)
  | safeArr (items : JSList) : SpecJsonSafeListA items → SpecJsonSafeA (.vArr items)
  | safeObj (fields : JSFields) : SpecJsonSafeFieldsA fields → SpecJsonSafeA (.vObj fields)

/-- All elements of the sequence are safe (amended predicate). -/
inductive SpecJsonSafeListA : JSList → Prop where
  | nil : SpecJsonSafeListA .nil
  | cons {hd : JSValue} {tl : JSList} :
      SpecJsonSafeA hd → SpecJsonSafeListA tl → SpecJsonSafeListA (.cons hd tl)

/-- All values of the mapping are safe (amended predicate). -/
inductive SpecJsonSafeFieldsA : JSFields → Prop where
  | nil : SpecJsonSafeFieldsA .nil
  | cons (key : String) {val : JSValue} {tl : JSFields} :
      SpecJsonSafeA val → SpecJsonSafeFieldsA tl → SpecJsonSafeFieldsA (.cons key val tl)

end

mutual

theorem isSimple_iff_specA : ∀ v : JSValue,
    isSimpleJsonSerializable v = true ↔ SpecJsonSafeA v
  | .vNull => ⟨fun _ => .safeNull, fun _ => rfl⟩
  | .vUndefined => ⟨fun _ => .safeUndefined, fun _ => rfl⟩
  | .vBool b => ⟨fun _ => .safeBool b, fun _ => rfl⟩
  | .vNum n => ⟨fun _ => .safeNum n, fun _ => rfl⟩
  | .vStr s => ⟨fun _ => .safeStr s, fun _ => rfl⟩
  | .vArr items => by
      rw [isSimpleJsonSerializable]
      constructor
      · intro h
        exact .safeArr items ((isSimpleList_iff_specA items).mp h)
      · intro h
        cases h with
        | safeArr _ hl => exact (isSimpleList_iff_specA items).mpr hl
  | .vObj fields => by
      rw [isSimpleJsonSerializable]
      constructor
      · intro h
        exact .safeObj fields ((isSimpleFields_iff_specA fields).mp h)
      · intro h
        cases h with
        | safeObj _ hf => exact (isSimpleFields_iff_specA fields).mpr hf
  | .vOther t => ⟨fun h => (nomatch h), fun h => nomatch h⟩

theorem isSimpleList_iff_specA : ∀ l : JSList,
    isSimpleJsonList l = true ↔ SpecJsonSafeListA l
  | .nil => ⟨fun _ => .nil, fun _ => rfl⟩
  | .cons hd tl => by
      rw [isSimpleJsonList, Bool.and_eq_true]
      constructor
      · rintro ⟨h1, h2⟩
        exact .cons ((isSimple_iff_specA hd).mp h1) ((isSimpleList_iff_specA tl).mp h2)
      · intro h
        cases h with
        | cons h1 h2 =>
          exact ⟨(isSimple_iff_specA hd).mpr h1, (isSimpleList_iff_specA tl).mpr h2⟩

theorem isSimpleFields_iff_specA : ∀ f : JSFields,
    isSimpleJsonFields f = true ↔ SpecJsonSafeFieldsA f
  | .nil => ⟨fun _ => .nil, fun _ => rfl⟩
  | .cons key val tl => by
      rw [isSimpleJsonFields, Bool.and_eq_true]
      constructor
      · rintro ⟨h1, h2⟩
        exact .cons key ((isSimple_iff_specA val).mp h1)
          ((isSimpleFields_iff_specA tl).mp h2)
      · intro h
        cases h with
        | cons _ h1 h2 =>
          exact ⟨(isSimple_iff_specA val).mpr h1, (isSimpleFields_iff_specA tl).mpr h2⟩

end

/-- Counterexample to **C9** as stated: the code classifies `undefined`
as JSON-safe (`value === null || value === undefined`), but the spec
enumeration (null, boolean, number, string, composite) does not contain
`undefined`. -/
theorem C9_counterexample :
    isSimpleJsonSerializable JSValue.vUndefined = true ∧
    ¬ SpecJsonSafe JSValue.vUndefined :=
  ⟨rfl, fun h => nomatch h⟩

/-- **C9** (amended).  The encoder classifies a value as JSON-safe
exactly when it is null or `undefined`, a boolean, a number, a string,
or a sequence/mapping composed recursively of such values with only
string keys; and — provided the external serializer honours its declared
interface and returns bytes — exactly the JSON-safe values are stored on
the direct path with type `json`, while every other value is delegated
to the serializer and stored on the opaque path. -/
theorem C9_json_safe_classification (S : Saver)
    (hbytes : ∀ v, ∃ tag bs, S.valSerde.dumps v = (tag, SerdeData.bytes bs)) :
    (∀ v, isSimpleJsonSerializable v = true ↔ SpecJsonSafeA v) ∧
    (∀ v, (encodeValue S v).typeName = "json" ↔ isSimpleJsonSerializable v = true) ∧
    (∀ v, isSimpleJsonSerializable v = false →
      ∃ tag bs, S.valSerde.dumps v = (tag, SerdeData.bytes bs) ∧
        encodeValue S v = .serde tag bs) := by
  refine ⟨isSimple_iff_specA, ?_, ?_⟩
  · intro v
    by_cases h : isSimpleJsonSerializable v = true
    · simp [encodeValue, h, StoredPayload.typeName]
    · obtain ⟨tag, bs, hd⟩ := hbytes v
      simp [encodeValue, h, hd, StoredPayload.typeName]
  · intro v h
    obtain ⟨tag, bs, hd⟩ := hbytes v
    refine ⟨tag, bs, hd, ?_⟩
    simp [encodeValue, h, hd]

/-- A concrete serializer for `JSValue` always returning bytes. -/
def bytesSerdeVal : SerdeFor JSValue :=
  ⟨fun _ => ("t", .bytes []), fun _ _ => .vNull⟩

/-- A concrete saver whose value serializer returns bytes. -/
def saverBytesEx : Saver := ⟨strSerdeCp, strSerdeVal, bytesSerdeVal⟩

/-- Witness for the amended C9 at a concrete serializer. -/
theorem C9_witness :
    (∀ v, isSimpleJsonSerializable v = true ↔ SpecJsonSafeA v) ∧
    (∀ v, (encodeValue saverBytesEx v).typeName = "json" ↔
      isSimpleJsonSerializable v = true) ∧
    (∀ v, isSimpleJsonSerializable v = false →
      ∃ tag bs, saverBytesEx.valSerde.dumps v = (tag, SerdeData.bytes bs) ∧
        encodeValue saverBytesEx v = .serde tag bs) :=
  C9_json_safe_classification saverBytesEx (fun _ => ⟨"t", [], rfl⟩)

/-! ### Characterization lemmas and store invariants -/

theorem upsertCheckpointSimple_fst_activeBranch (s : Store) (tk : ThreadKey) (cid : String)
    (pay : StoredPayload Checkpoint) (mdp : StoredPayload Metadata) :
    (upsertCheckpointSimple s tk cid pay mdp).1.activeBranch = s.activeBranch := by
  unfold upsertCheckpointSimple
  split
  · rfl
  · dsimp only
    split <;> rfl

theorem upsertCheckpointSimple_fst_hasBranch (s : Store) (tk : ThreadKey) (cid : String)
    (pay : StoredPayload Checkpoint) (mdp : StoredPayload Metadata) :
    (upsertCheckpointSimple s tk cid pay mdp).1.hasBranch = s.hasBranch := by
  unfold upsertCheckpointSimple
  split
  · rfl
  · dsimp only
    split <;> rfl

theorem upsertCheckpointSimple_fst_branches (s : Store) (tk : ThreadKey) (cid : String)
    (pay : StoredPayload Checkpoint) (mdp : StoredPayload Metadata) :
    (upsertCheckpointSimple s tk cid pay mdp).1.branches = s.branches := by
  unfold upsertCheckpointSimple
  split
  · rfl
  · dsimp only
    split <;> rfl

theorem upsertCheckpointSimple_fst_hasChannel (s : Store) (tk : ThreadKey) (cid : String)
    (pay : StoredPayload Checkpoint) (mdp : StoredPayload Metadata) :
    (upsertCheckpointSimple s tk cid pay mdp).1.hasChannel = s.hasChannel := by
  unfold upsertCheckpointSimple
  split
  · rfl
  · dsimp only
    split <;> rfl

theorem upsertCheckpointSimple_fst_channelStates (s : Store) (tk : ThreadKey) (cid : String)
    (pay : StoredPayload Checkpoint) (mdp : StoredPayload Metadata) :
    (upsertCheckpointSimple s tk cid pay mdp).1.channelStates = s.channelStates := by
  unfold upsertCheckpointSimple
  split
  · rfl
  · dsimp only
    split <;> rfl

theorem upsertCheckpointSimple_fst_checkpoints_char (s : Store) (tk : ThreadKey)
    (cid : String) (pay : StoredPayload Checkpoint) (mdp : StoredPayload Metadata) :
    (upsertCheckpointSimple s tk cid pay mdp).1.checkpoints =
      if cid ∈ checkpointIds s then s.checkpoints else ⟨cid, pay, mdp⟩ :: s.checkpoints := by
  unfold upsertCheckpointSimple
  split
  · rfl
  · dsimp only
    split <;> rfl

theorem upsertChannelState_hasChannel_char (s : Store) (cid : String) (b : BlobData) :
    (upsertChannelState s cid b).hasChannel =
      if cid ∈ checkpointIds s then (cid, b.channel, b.version) :: s.hasChannel
      else s.hasChannel := by
  unfold upsertChannelState
  split
  · dsimp only
    split <;> rfl
  · rfl

theorem upsertChannelState_channelStates_char (s : Store) (cid : String) (b : BlobData) :
    (upsertChannelState s cid b).channelStates =
      if cid ∈ checkpointIds s then
        (match findChannelState s b.channel b.version with
          | some _ => s.channelStates
          | none => ⟨b.channel, b.version, b.payload⟩ :: s.channelStates)
      else s.channelStates := by
  unfold upsertChannelState
  split
  · dsimp only
    split <;> rfl
  · rfl

theorem createMainBranch_activeBranch_char (s : Store) (tk : ThreadKey) (bid : String) :
    (createMainBranch s tk bid).1.activeBranch =
      if (tk ∈ s.threads ∧ hasBranchCount s tk = 0) ∧ bid ∉ branchIds s then
        (tk, bid) :: s.activeBranch
      else s.activeBranch := by
  unfold createMainBranch
  by_cases hc1 : tk ∈ s.threads ∧ hasBranchCount s tk = 0
  · rw [if_pos hc1]
    by_cases hc2 : bid ∈ branchIds s
    · rw [if_pos hc2, if_neg (fun h => h.2 hc2)]
    · rw [if_neg hc2, if_pos ⟨hc1, hc2⟩]
  · rw [if_neg hc1, if_neg (fun h => hc1 h.1)]

theorem createMainBranch_hasBranch_char (s : Store) (tk : ThreadKey) (bid : String) :
    (createMainBranch s tk bid).1.hasBranch =
      if (tk ∈ s.threads ∧ hasBranchCount s tk = 0) ∧ bid ∉ branchIds s then
        (tk, bid) :: s.hasBranch
      else s.hasBranch := by
  unfold createMainBranch
  by_cases hc1 : tk ∈ s.threads ∧ hasBranchCount s tk = 0
  · rw [if_pos hc1]
    by_cases hc2 : bid ∈ branchIds s
    · rw [if_pos hc2, if_neg (fun h => h.2 hc2)]
    · rw [if_neg hc2, if_pos ⟨hc1, hc2⟩]
  · rw [if_neg hc1, if_neg (fun h => hc1 h.1)]

theorem upsertWrite_activeBranch2 (s : Store) (cid : String) (r : WriteRecord) :
    (upsertWrite s cid r).activeBranch = s.activeBranch := by
  unfold upsertWrite
  split <;> rfl

theorem upsertWrite_channelStates (s : Store) (cid : String) (r : WriteRecord) :
    (upsertWrite s cid r).channelStates = s.channelStates := by
  unfold upsertWrite
  split <;> rfl

theorem foldlUpsertW_threads (cid : String) (l : List WriteRecord) (s : Store) :
    (l.foldl (fun acc r => upsertWrite acc cid r) s).threads = s.threads := by
  induction l generalizing s with
  | nil => rfl
  | cons r tl ih => rw [List.foldl_cons, ih, upsertWrite_threads]

theorem foldlUpsertW_checkpoints (cid : String) (l : List WriteRecord) (s : Store) :
    (l.foldl (fun acc r => upsertWrite acc cid r) s).checkpoints = s.checkpoints := by
  induction l generalizing s with
  | nil => rfl
  | cons r tl ih => rw [List.foldl_cons, ih, upsertWrite_checkpoints]

theorem foldlUpsertW_hasChannel (cid : String) (l : List WriteRecord) (s : Store) :
    (l.foldl (fun acc r => upsertWrite acc cid r) s).hasChannel = s.hasChannel := by
  induction l generalizing s with
  | nil => rfl
  | cons r tl ih => rw [List.foldl_cons, ih, upsertWrite_hasChannel]

theorem foldlUpsertW_hasBranch (cid : String) (l : List WriteRecord) (s : Store) :
    (l.foldl (fun acc r => upsertWrite acc cid r) s).hasBranch = s.hasBranch := by
  induction l generalizing s with
  | nil => rfl
  | cons r tl ih => rw [List.foldl_cons, ih, upsertWrite_hasBranch]

theorem foldlUpsertW_activeBranch (cid : String) (l : List WriteRecord) (s : Store) :
    (l.foldl (fun acc r => upsertWrite acc cid r) s).activeBranch = s.activeBranch := by
  induction l generalizing s with
  | nil => rfl
  | cons r tl ih => rw [List.foldl_cons, ih, upsertWrite_activeBranch2]

theorem foldlUpsertW_channelStates (cid : String) (l : List WriteRecord) (s : Store) :
    (l.foldl (fun acc r => upsertWrite acc cid r) s).channelStates = s.channelStates := by
  induction l generalizing s with
  | nil => rfl
  | cons r tl ih => rw [List.foldl_cons, ih, upsertWrite_channelStates]

/-- Checkpoint ids are unique (`checkpoint_id_unique`). -/
def NodupCkInv (s : Store) : Prop := (checkpointIds s).Nodup

/-- Every `HAS_CHANNEL` edge leaves an existing checkpoint. -/
def EdgeCkInv (s : Store) : Prop := ∀ e ∈ s.hasChannel, e.1 ∈ checkpointIds s

/-- The key consistency fact behind C2: for every `HAS_CHANNEL` edge, the
`(channel, version)` key of the referenced `ChannelState` is exactly the
version this checkpoint decoded `channel_versions` assigns to that
channel (`String(channelVersions[channel] ?? "")`). -/
def ChanInv (S : Saver) (s : Store) : Prop :=
  ∀ e ∈ s.hasChannel, ∀ cn ∈ s.checkpoints, cn.checkpoint_id = e.1 →
    versionString (loadCheckpoint S cn.payload).channel_versions e.2.1 = e.2.2

/-- Spec invariant: at most one `ACTIVE_BRANCH` edge per thread. -/
def ActiveInv (s : Store) : Prop := ∀ tk, activeCount s tk ≤ 1

/-- Every `ACTIVE_BRANCH` edge is accompanied by the `HAS_BRANCH` edge of
the same thread/branch pair. -/
def ActiveSubInv (s : Store) : Prop := ∀ e ∈ s.activeBranch, e ∈ s.hasBranch

theorem activeInv_congr {s1 s2 : Store} (ha : s2.activeBranch = s1.activeBranch)
    (h : ActiveInv s1) : ActiveInv s2 := by
  intro tk
  have hx := h tk
  unfold activeCount at hx ⊢
  rw [ha]
  exact hx

theorem activeSubInv_congr {s1 s2 : Store} (ha : s2.activeBranch = s1.activeBranch)
    (hb : s2.hasBranch = s1.hasBranch) (h : ActiveSubInv s1) : ActiveSubInv s2 := by
  intro e he
  rw [ha] at he
  rw [hb]
  exact h e he

theorem activeCount_eq_zero_of_no_branches (s : Store) (tk : ThreadKey)
    (hsub : ActiveSubInv s) (h0 : hasBranchCount s tk = 0) : activeCount s tk = 0 := by
  unfold activeCount
  rw [List.length_eq_zero]
  by_contra hne
  obtain ⟨e, he⟩ := List.exists_mem_of_ne_nil _ hne
  have hef := List.mem_filter.mp he
  have he2 : e ∈ s.hasBranch := hsub e hef.1
  have he3 : e ∈ s.hasBranch.filter (fun e => decide (e.1 = tk)) :=
    List.mem_filter.mpr ⟨he2, hef.2⟩
  unfold hasBranchCount at h0
  rw [List.length_eq_zero] at h0
  rw [h0] at he3
  exact absurd he3 (List.not_mem_nil e)

theorem createMainBranch_branchInv (s : Store) (tk : ThreadKey) (bid : String)
    (h : ActiveInv s ∧ ActiveSubInv s) :
    ActiveInv (createMainBranch s tk bid).1 ∧ ActiveSubInv (createMainBranch s tk bid).1 := by
  by_cases hc : (tk ∈ s.threads ∧ hasBranchCount s tk = 0) ∧ bid ∉ branchIds s
  · constructor
    · intro tk2
      unfold activeCount
      rw [createMainBranch_activeBranch_char, if_pos hc, List.filter_cons]
      by_cases htk : tk = tk2
      · subst htk
        have hz := activeCount_eq_zero_of_no_branches s tk h.2 hc.1.2
        unfold activeCount at hz
        rw [List.length_eq_zero] at hz
        simp [hz]
      · simp only [decide_eq_true_eq]
        rw [if_neg (fun hx => htk hx)]
        exact h.1 tk2
    · intro e he
      rw [createMainBranch_activeBranch_char, if_pos hc, List.mem_cons] at he
      rw [createMainBranch_hasBranch_char, if_pos hc, List.mem_cons]
      exact he.imp id (h.2 e)
  · refine ⟨activeInv_congr ?_ h.1, activeSubInv_congr ?_ ?_ h.2⟩
    · rw [createMainBranch_activeBranch_char, if_neg hc]
    · rw [createMainBranch_activeBranch_char, if_neg hc]
    · rw [createMainBranch_hasBranch_char, if_neg hc]

theorem putM_branchInv (S : Saver) (cfg : RunnableConfig) (cp : Checkpoint) (md : Metadata)
    (nv : List (String × String)) (bid : String) (s : Store)
    (h : ActiveInv s ∧ ActiveSubInv s) :
    ActiveInv (putM S cfg cp md nv bid s).1 ∧
    ActiveSubInv (putM S cfg cp md nv bid s).1 := by
  unfold putM
  split
  · exact h
  next pc heq =>
  dsimp only
  split
  next s1 e heq1 =>
    have hx : s1 = (upsertCheckpointSimple s ⟨pc.threadId, pc.checkpointNs⟩ cp.id
        (dumpCheckpoint S cp) (dumpMetadata S md)).1 := by rw [heq1]
    refine ⟨activeInv_congr ?_ h.1, activeSubInv_congr ?_ ?_ h.2⟩
    · rw [hx, upsertCheckpointSimple_fst_activeBranch]
    · rw [hx, upsertCheckpointSimple_fst_activeBranch]
    · rw [hx, upsertCheckpointSimple_fst_hasBranch]
  next s1 heq1 =>
    have hx : s1 = (upsertCheckpointSimple s ⟨pc.threadId, pc.checkpointNs⟩ cp.id
        (dumpCheckpoint S cp) (dumpMetadata S md)).1 := by rw [heq1]
    have h1 : ActiveInv s1 ∧ ActiveSubInv s1 := by
      refine ⟨activeInv_congr ?_ h.1, activeSubInv_congr ?_ ?_ h.2⟩
      · rw [hx, upsertCheckpointSimple_fst_activeBranch]
      · rw [hx, upsertCheckpointSimple_fst_activeBranch]
      · rw [hx, upsertCheckpointSimple_fst_hasBranch]
    have h2 : ActiveInv (if truthy pc.checkpointId = true then
        linkParentCheckpoint s1 cp.id (pc.checkpointId.getD "") else s1) ∧
        ActiveSubInv (if truthy pc.checkpointId = true then
        linkParentCheckpoint s1 cp.id (pc.checkpointId.getD "") else s1) := by
      split
      · refine ⟨activeInv_congr ?_ h1.1, activeSubInv_congr ?_ ?_ h1.2⟩
        · rw [linkParentCheckpoint_activeBranch]
        · rw [linkParentCheckpoint_activeBranch]
        · rw [linkParentCheckpoint_hasBranch]
      · exact h1
    set s3 := List.foldl (fun acc b => upsertChannelState acc cp.id b)
        (if truthy pc.checkpointId = true then
          linkParentCheckpoint s1 cp.id (pc.checkpointId.getD "") else s1)
        (dumpBlobs S cp.channel_values cp.channel_versions) with hs3
    have h3 : ActiveInv s3 ∧ ActiveSubInv s3 := by
      refine ⟨activeInv_congr ?_ h2.1, activeSubInv_congr ?_ ?_ h2.2⟩
      · rw [hs3, foldlUpsertCS_activeBranch]
      · rw [hs3, foldlUpsertCS_activeBranch]
      · rw [hs3, foldlUpsertCS_hasBranch]
    split
    next s4 e2 heq2 =>
      have hy : s4 = (if threadHasBranches s3 ⟨pc.threadId, pc.checkpointNs⟩ = some 0 then
          createMainBranch s3 ⟨pc.threadId, pc.checkpointNs⟩ bid else (s3, none)).1 := by
        rw [heq2]
      rw [hy]
      split
      · exact createMainBranch_branchInv _ _ _ h3
      · exact h3
    next s4 heq2 =>
      have h4 : ActiveInv s4 ∧ ActiveSubInv s4 := by
        have hy : s4 = (if threadHasBranches s3 ⟨pc.threadId, pc.checkpointNs⟩ = some 0 then
            createMainBranch s3 ⟨pc.threadId, pc.checkpointNs⟩ bid else (s3, none)).1 := by
          rw [heq2]
        rw [hy]
        split
        · exact createMainBranch_branchInv _ _ _ h3
        · exact h3
      refine ⟨activeInv_congr ?_ h4.1, activeSubInv_congr ?_ ?_ h4.2⟩
      · rw [updateBranchHead_activeBranch]
      · rw [updateBranchHead_activeBranch]
      · rw [updateBranchHead_hasBranch]

theorem putWritesM_branchInv (S : Saver) (cfg : RunnableConfig)
    (writes : List (String × JSValue)) (taskId : String) (s : Store)
    (h : ActiveInv s ∧ ActiveSubInv s) :
    ActiveInv (putWritesM S cfg writes taskId s).1 ∧
    ActiveSubInv (putWritesM S cfg writes taskId s).1 := by
  unfold putWritesM
  split
  · exact h
  · dsimp only
    split
    · refine ⟨activeInv_congr ?_ h.1, activeSubInv_congr ?_ ?_ h.2⟩
      · rw [foldlUpsertW_activeBranch]
      · rw [foldlUpsertW_activeBranch]
      · rw [foldlUpsertW_hasBranch]
    · exact h

theorem deleteThreadM_branchInv (s : Store) (tid : String)
    (h : ActiveInv s ∧ ActiveSubInv s) :
    ActiveInv (deleteThreadM s tid) ∧ ActiveSubInv (deleteThreadM s tid) := by
  constructor
  · intro tk
    have hx := h.1 tk
    unfold activeCount at hx ⊢
    unfold deleteThreadM deleteOrphanChannelStatesQ deleteThreadQ
    dsimp only
    calc (List.filter (fun e => decide (e.1 = tk))
            (List.filter _ s.activeBranch)).length
        ≤ (List.filter (fun e => decide (e.1 = tk)) s.activeBranch).length :=
          List.Sublist.length_le (List.Sublist.filter _ (List.filter_sublist _))
      _ ≤ 1 := hx
  · intro e he
    unfold deleteThreadM deleteOrphanChannelStatesQ deleteThreadQ at he ⊢
    dsimp only at he ⊢
    rw [List.mem_filter] at he ⊢
    exact ⟨h.2 e he.1, he.2⟩

/-- Branch invariants hold in every reachable store. -/
theorem reachable_branchInv (S : Saver) {s : Store} (h : Reachable S s) :
    ActiveInv s ∧ ActiveSubInv s := by
  induction h with
  | empty =>
    constructor
    · intro tk
      unfold activeCount emptyStore
      simp
    · intro e he
      exact absurd he (List.not_mem_nil e)
  | step op hs ih =>
    cases op with
    | opPut cfg cp md nv bid => exact putM_branchInv S cfg cp md nv bid _ ih
    | opPutWrites cfg writes taskId => exact putWritesM_branchInv S cfg writes taskId _ ih
    | opGetTuple cfg => exact ih
    | opList cfg before limit => exact ih
    | opDeleteThread tid => exact deleteThreadM_branchInv _ tid ih

/-- **C6.** For every store state reachable by any sequence of
caller-facing operations starting from the empty store, every thread has
at most one `ACTIVE_BRANCH` edge.  In the model each operation is one
transition, so the only active-branch change reachable through the
caller-facing API — the main-branch bootstrap inside `put`, which runs
only when the thread has no branch at all — installs the new edge
atomically; `CYPHER_SET_ACTIVE_BRANCH` (delete-old-then-create-new in a
single atomic statement) is not reachable through any method of
`Neo4jSaver` (see C5). -/
theorem C6_at_most_one_active_branch (S : Saver) (s : Store) (h : Reachable S s)
    (tk : ThreadKey) : activeCount s tk ≤ 1 :=
  (reachable_branchInv S h).1 tk

/-- Witness for C6 at a concrete reachable store (two `put` operations). -/
theorem C6_witness :
    activeCount (applyOp saverEx (applyOp saverEx emptyStore
      (.opPut cfgEx cpEx mdEx [] "b1"))
      (.opPut ⟨some "t1", some "", some "c1"⟩ ⟨1, "c2", "ts2", [], []⟩ mdEx [] "b2"))
      ⟨"t1", ""⟩ ≤ 1 :=
  C6_at_most_one_active_branch saverEx _
    (Reachable.step _ (Reachable.step _ Reachable.empty)) ⟨"t1", ""⟩

theorem nodupCkInv_congr {s1 s2 : Store} (hc : s2.checkpoints = s1.checkpoints)
    (h : NodupCkInv s1) : NodupCkInv s2 := by
  unfold NodupCkInv checkpointIds at h ⊢
  rw [hc]
  exact h

theorem edgeCkInv_congr {s1 s2 : Store} (hc : s2.checkpoints = s1.checkpoints)
    (he : s2.hasChannel = s1.hasChannel) (h : EdgeCkInv s1) : EdgeCkInv s2 := by
  intro e hee
  rw [he] at hee
  unfold checkpointIds
  rw [hc]
  exact h e hee

theorem chanInv_congr {S : Saver} {s1 s2 : Store} (hc : s2.checkpoints = s1.checkpoints)
    (he : s2.hasChannel = s1.hasChannel) (h : ChanInv S s1) : ChanInv S s2 := by
  intro e hee cn hcn hid
  rw [he] at hee
  rw [hc] at hcn
  exact h e hee cn hcn hid

theorem dumpBlobs_version (S : Saver) (cvv : List (String × JSValue))
    (cv : List (String × String)) :
    ∀ b ∈ dumpBlobs S cvv cv, b.version = versionString cv b.channel := by
  intro b hb
  rw [dumpBlobs, List.mem_map] at hb
  obtain ⟨x, _, rfl⟩ := hb
  rfl

theorem upsertCheckpointSimple_none_fresh {s s1 : Store} {tk : ThreadKey} {cid : String}
    {pay : StoredPayload Checkpoint} {mdp : StoredPayload Metadata}
    (heq : upsertCheckpointSimple s tk cid pay mdp = (s1, none)) :
    cid ∉ checkpointIds s := by
  intro hmem
  unfold upsertCheckpointSimple at heq
  rw [if_pos hmem] at heq
  exact absurd (congrArg Prod.snd heq) (by simp)

theorem upsertCheckpointSimple_ckInv (S : Saver) (s : Store) (tk : ThreadKey)
    (cid : String) (pay : StoredPayload Checkpoint) (mdp : StoredPayload Metadata)
    (h : NodupCkInv s ∧ EdgeCkInv s ∧ ChanInv S s) :
    NodupCkInv (upsertCheckpointSimple s tk cid pay mdp).1 ∧
    EdgeCkInv (upsertCheckpointSimple s tk cid pay mdp).1 ∧
    ChanInv S (upsertCheckpointSimple s tk cid pay mdp).1 := by
  have hck := upsertCheckpointSimple_fst_checkpoints_char s tk cid pay mdp
  have hch := upsertCheckpointSimple_fst_hasChannel s tk cid pay mdp
  by_cases hmem : cid ∈ checkpointIds s
  · rw [if_pos hmem] at hck
    exact ⟨nodupCkInv_congr hck h.1, edgeCkInv_congr hck hch h.2.1,
      chanInv_congr hck hch h.2.2⟩
  · rw [if_neg hmem] at hck
    refine ⟨?_, ?_, ?_⟩
    · unfold NodupCkInv checkpointIds at h ⊢
      rw [hck, List.map_cons]
      exact List.Nodup.cons hmem h.1
    · intro e hee
      rw [hch] at hee
      unfold checkpointIds
      rw [hck, List.map_cons]
      exact List.mem_cons_of_mem _ (h.2.1 e hee)
    · intro e hee cn hcn hid
      rw [hch] at hee
      rw [hck, List.mem_cons] at hcn
      cases hcn with
      | inl hcn =>
        exfalso
        have : e.1 ∈ checkpointIds s := h.2.1 e hee
        rw [← hid, hcn] at this
        exact hmem this
      | inr hcn => exact h.2.2 e hee cn hcn hid

theorem upsertChannelState_ckInv (S : Saver) (s : Store) (cid : String) (b : BlobData)
    (cv : List (String × String))
    (hb : b.version = versionString cv b.channel)
    (hnodes : ∀ cn ∈ s.checkpoints, cn.checkpoint_id = cid →
      (loadCheckpoint S cn.payload).channel_versions = cv)
    (h : NodupCkInv s ∧ EdgeCkInv s ∧ ChanInv S s) :
    NodupCkInv (upsertChannelState s cid b) ∧
    EdgeCkInv (upsertChannelState s cid b) ∧
    ChanInv S (upsertChannelState s cid b) := by
  have hck := upsertChannelState_checkpoints s cid b
  have hch := upsertChannelState_hasChannel_char s cid b
  refine ⟨nodupCkInv_congr hck h.1, ?_, ?_⟩
  · intro e hee
    rw [hch] at hee
    unfold checkpointIds
    rw [hck]
    by_cases hmem : cid ∈ checkpointIds s
    · rw [if_pos hmem, List.mem_cons] at hee
      cases hee with
      | inl hee => rw [hee]; exact hmem
      | inr hee => exact h.2.1 e hee
    · rw [if_neg hmem] at hee
      exact h.2.1 e hee
  · intro e hee cn hcn hid
    rw [hch] at hee
    rw [hck] at hcn
    by_cases hmem : cid ∈ checkpointIds s
    · rw [if_pos hmem, List.mem_cons] at hee
      cases hee with
      | inl hee =>
        subst hee
        dsimp only at hid ⊢
        rw [hnodes cn hcn hid, ← hb]
      | inr hee => exact h.2.2 e hee cn hcn hid
    · rw [if_neg hmem] at hee
      exact h.2.2 e hee cn hcn hid

theorem foldlUpsertCS_ckInv (S : Saver) (cid : String) (cv : List (String × String))
    (blobs : List BlobData) (s : Store)
    (hblobs : ∀ b ∈ blobs, b.version = versionString cv b.channel)
    (hnodes : ∀ cn ∈ s.checkpoints, cn.checkpoint_id = cid →
      (loadCheckpoint S cn.payload).channel_versions = cv)
    (h : NodupCkInv s ∧ EdgeCkInv s ∧ ChanInv S s) :
    NodupCkInv (blobs.foldl (fun acc b => upsertChannelState acc cid b) s) ∧
    EdgeCkInv (blobs.foldl (fun acc b => upsertChannelState acc cid b) s) ∧
    ChanInv S (blobs.foldl (fun acc b => upsertChannelState acc cid b) s) := by
  induction blobs generalizing s with
  | nil => exact h
  | cons b tl ih =>
    rw [List.foldl_cons]
    refine ih _ (fun b2 hb2 => hblobs b2 (List.mem_cons_of_mem _ hb2)) ?_ ?_
    · intro cn hcn hid
      rw [upsertChannelState_checkpoints] at hcn
      exact hnodes cn hcn hid
    · exact upsertChannelState_ckInv S s cid b cv
        (hblobs b (List.mem_cons_self _ _)) hnodes h

theorem putM_ckInv (S : Saver) (hrt : S.cpSerde.RoundTrips) (cfg : RunnableConfig)
    (cp : Checkpoint) (md : Metadata) (nv : List (String × String)) (bid : String)
    (s : Store) (h : NodupCkInv s ∧ EdgeCkInv s ∧ ChanInv S s) :
    NodupCkInv (putM S cfg cp md nv bid s).1 ∧
    EdgeCkInv (putM S cfg cp md nv bid s).1 ∧
    ChanInv S (putM S cfg cp md nv bid s).1 := by
  unfold putM
  split
  · exact h
  next pc heq =>
  dsimp only
  split
  next s1 e heq1 =>
    have hx : s1 = (upsertCheckpointSimple s ⟨pc.threadId, pc.checkpointNs⟩ cp.id
        (dumpCheckpoint S cp) (dumpMetadata S md)).1 := by rw [heq1]
    rw [hx]
    exact upsertCheckpointSimple_ckInv S s _ cp.id _ _ h
  next s1 heq1 =>
    have hfresh := upsertCheckpointSimple_none_fresh heq1
    have hx : s1 = (upsertCheckpointSimple s ⟨pc.threadId, pc.checkpointNs⟩ cp.id
        (dumpCheckpoint S cp) (dumpMetadata S md)).1 := by rw [heq1]
    have h1 : NodupCkInv s1 ∧ EdgeCkInv s1 ∧ ChanInv S s1 := by
      rw [hx]
      exact upsertCheckpointSimple_ckInv S s _ cp.id _ _ h
    have hc1 : s1.checkpoints =
        ⟨cp.id, dumpCheckpoint S cp, dumpMetadata S md⟩ :: s.checkpoints := by
      rw [hx, upsertCheckpointSimple_fst_checkpoints_char, if_neg hfresh]
    set s2 := (if truthy pc.checkpointId = true then
        linkParentCheckpoint s1 cp.id (pc.checkpointId.getD "") else s1) with hs2
    have hc2 : s2.checkpoints = s1.checkpoints := by
      rw [hs2]; split
      · exact linkParentCheckpoint_checkpoints _ _ _
      · rfl
    have hch2 : s2.hasChannel = s1.hasChannel := by
      rw [hs2]; split
      · exact linkParentCheckpoint_hasChannel _ _ _
      · rfl
    have h2 : NodupCkInv s2 ∧ EdgeCkInv s2 ∧ ChanInv S s2 :=
      ⟨nodupCkInv_congr hc2 h1.1, edgeCkInv_congr hc2 hch2 h1.2.1,
        chanInv_congr hc2 hch2 h1.2.2⟩
    have hnodes : ∀ cn ∈ s2.checkpoints, cn.checkpoint_id = cp.id →
        (loadCheckpoint S cn.payload).channel_versions = cp.channel_versions := by
      intro cn hcn hid
      rw [hc2, hc1, List.mem_cons] at hcn
      cases hcn with
      | inl hcn =>
        rw [hcn]
        dsimp only
        rw [loadCheckpoint_dump_channel_versions S hrt]
      | inr hcn =>
        exfalso
        exact hfresh (List.mem_map.mpr ⟨cn, hcn, hid⟩)
    set s3 := List.foldl (fun acc b => upsertChannelState acc cp.id b) s2
        (dumpBlobs S cp.channel_values cp.channel_versions) with hs3
    have h3 : NodupCkInv s3 ∧ EdgeCkInv s3 ∧ ChanInv S s3 := by
      rw [hs3]
      exact foldlUpsertCS_ckInv S cp.id cp.channel_versions _ s2
        (dumpBlobs_version S _ _) hnodes h2
    split
    next s4 e2 heq2 =>
      have hy : s4 = (if threadHasBranches s3 ⟨pc.threadId, pc.checkpointNs⟩ = some 0 then
          createMainBranch s3 ⟨pc.threadId, pc.checkpointNs⟩ bid else (s3, none)).1 := by
        rw [heq2]
      rw [hy]
      split
      · exact ⟨nodupCkInv_congr (createMainBranch_checkpoints _ _ _) h3.1,
          edgeCkInv_congr (createMainBranch_checkpoints _ _ _)
            (createMainBranch_hasChannel _ _ _) h3.2.1,
          chanInv_congr (createMainBranch_checkpoints _ _ _)
            (createMainBranch_hasChannel _ _ _) h3.2.2⟩
      · exact h3
    next s4 heq2 =>
      have h4 : NodupCkInv s4 ∧ EdgeCkInv s4 ∧ ChanInv S s4 := by
        have hy : s4 = (if threadHasBranches s3 ⟨pc.threadId, pc.checkpointNs⟩ = some 0 then
            createMainBranch s3 ⟨pc.threadId, pc.checkpointNs⟩ bid else (s3, none)).1 := by
          rw [heq2]
        rw [hy]
        split
        · exact ⟨nodupCkInv_congr (createMainBranch_checkpoints _ _ _) h3.1,
            edgeCkInv_congr (createMainBranch_checkpoints _ _ _)
              (createMainBranch_hasChannel _ _ _) h3.2.1,
            chanInv_congr (createMainBranch_checkpoints _ _ _)
              (createMainBranch_hasChannel _ _ _) h3.2.2⟩
        · exact h3
      exact ⟨nodupCkInv_congr (updateBranchHead_checkpoints _ _ _) h4.1,
        edgeCkInv_congr (updateBranchHead_checkpoints _ _ _)
          (updateBranchHead_hasChannel _ _ _) h4.2.1,
        chanInv_congr (updateBranchHead_checkpoints _ _ _)
          (updateBranchHead_hasChannel _ _ _) h4.2.2⟩

theorem putWritesM_ckInv (S : Saver) (cfg : RunnableConfig)
    (writes : List (String × JSValue)) (taskId : String) (s : Store)
    (h : NodupCkInv s ∧ EdgeCkInv s ∧ ChanInv S s) :
    NodupCkInv (putWritesM S cfg writes taskId s).1 ∧
    EdgeCkInv (putWritesM S cfg writes taskId s).1 ∧
    ChanInv S (putWritesM S cfg writes taskId s).1 := by
  unfold putWritesM
  split
  · exact h
  · dsimp only
    split
    · exact ⟨nodupCkInv_congr (foldlUpsertW_checkpoints _ _ _) h.1,
        edgeCkInv_congr (foldlUpsertW_checkpoints _ _ _)
          (foldlUpsertW_hasChannel _ _ _) h.2.1,
        chanInv_congr (foldlUpsertW_checkpoints _ _ _)
          (foldlUpsertW_hasChannel _ _ _) h.2.2⟩
    · exact h

theorem deleteThreadM_ckInv (S : Saver) (s : Store) (tid : String)
    (h : NodupCkInv s ∧ EdgeCkInv s ∧ ChanInv S s) :
    NodupCkInv (deleteThreadM s tid) ∧ EdgeCkInv (deleteThreadM s tid) ∧
    ChanInv S (deleteThreadM s tid) := by
  unfold deleteThreadM deleteOrphanChannelStatesQ deleteThreadQ
  dsimp only
  refine ⟨?_, ?_, ?_⟩
  · unfold NodupCkInv checkpointIds at h ⊢
    dsimp only
    exact List.Nodup.sublist (List.Sublist.map _ (List.filter_sublist _)) h.1
  · intro e hee
    dsimp only at hee
    rw [List.mem_filter] at hee
    have he1 : e.1 ∈ checkpointIds s := h.2.1 e hee.1
    unfold checkpointIds at he1 ⊢
    dsimp only
    rw [List.mem_map] at he1 ⊢
    obtain ⟨cn, hcn, hcnid⟩ := he1
    refine ⟨cn, List.mem_filter.mpr ⟨hcn, ?_⟩, hcnid⟩
    rw [hcnid]
    exact hee.2
  · intro e hee cn hcn hid
    dsimp only at hee hcn
    rw [List.mem_filter] at hee hcn
    exact h.2.2 e hee.1 cn hcn.1 hid

/-- Checkpoint-id uniqueness, edge well-formedness and the
channel-version consistency fact hold in every reachable store (given a
round-tripping checkpoint serializer). -/
theorem reachable_ckInv (S : Saver) (hrt : S.cpSerde.RoundTrips) {s : Store}
    (h : Reachable S s) : NodupCkInv s ∧ EdgeCkInv s ∧ ChanInv S s := by
  induction h with
  | empty =>
    refine ⟨List.nodup_nil, ?_, ?_⟩
    · intro e he
      exact absurd he (List.not_mem_nil e)
    · intro e he
      exact absurd he (List.not_mem_nil e)
  | step op hs ih =>
    cases op with
    | opPut cfg cp md nv bid => exact putM_ckInv S hrt cfg cp md nv bid _ ih
    | opPutWrites cfg writes taskId => exact putWritesM_ckInv S cfg writes taskId _ ih
    | opGetTuple cfg => exact ih
    | opList cfg before limit => exact ih
    | opDeleteThread tid => exact deleteThreadM_ckInv S _ tid ih

/-- Association-list lookup (`channelVersions[channel]`). -/
def listLookup (l : List (String × String)) (k : String) : Option String :=
  (l.find? (fun p => decide (p.1 = k))).map (·.2)

theorem versionString_eq_getD (cv : List (String × String)) (ch : String) :
    versionString cv ch = (listLookup cv ch).getD "" := rfl

/-- **C2.** In `getTuple`, for every `(channel, version)` pair recovered
from a stored checkpoint decoded `channel_versions`, the `ChannelState`
rows fetched by `CYPHER_GET_CHANNEL_STATES` match both the channel name
and that channel exact version: in every reachable store, every row the
query returns for a stored checkpoint satisfies
`channel_versions[row.channel] = row.version`.  In particular a
`ChannelState` whose version belongs to a different channel of the same
checkpoint, or any stale version of the same channel, is never returned
or substituted — even though the Cypher `IN` filters alone would admit
such cross matches, the `HAS_CHANNEL` edges of a reachable store only
ever point at a checkpoint exact `(channel, version)` pairs.  This
covers all three record sources of `getTuple` (by id, active branch
head, latest), since each returns the payload of a stored checkpoint
node. -/
theorem C2_channel_states_exact_match (S : Saver) (s : Store)
    (hrt : S.cpSerde.RoundTrips) (hs : Reachable S s)
    (cn : CheckpointNode) (hcn : cn ∈ s.checkpoints) :
    ∀ cs ∈ getChannelStatesQ s cn.checkpoint_id
        ((loadCheckpoint S cn.payload).channel_versions.map (·.1))
        ((loadCheckpoint S cn.payload).channel_versions.map (·.2)),
      listLookup (loadCheckpoint S cn.payload).channel_versions cs.channel =
        some cs.version := by
  intro cs hcs
  unfold getChannelStatesQ at hcs
  rw [List.mem_filter] at hcs
  obtain ⟨-, hfilters⟩ := hcs
  rw [Bool.and_eq_true, Bool.and_eq_true] at hfilters
  obtain ⟨⟨hedge, hchan⟩, -⟩ := hfilters
  rw [decide_eq_true_eq] at hedge hchan
  have hinv := (reachable_ckInv S hrt hs).2.2
  have hver := hinv (cn.checkpoint_id, cs.channel, cs.version) hedge cn hcn rfl
  dsimp only at hver
  rw [List.mem_map] at hchan
  obtain ⟨p, hp, hpch⟩ := hchan
  cases hfq : (loadCheckpoint S cn.payload).channel_versions.find?
      (fun q => decide (q.1 = cs.channel)) with
  | none =>
    exfalso
    have hnone := List.find?_eq_none.mp hfq p hp
    rw [decide_eq_true_eq] at hnone
    exact hnone hpch
  | some q =>
    rw [versionString_eq_getD] at hver
    unfold listLookup at hver ⊢
    rw [hfq] at hver ⊢
    simp only [Option.map_some', Option.getD_some] at hver
    rw [Option.map_some', hver]

theorem findChannelState_congr {s1 s2 : Store} (h : s2.channelStates = s1.channelStates)
    (ch v : String) : findChannelState s2 ch v = findChannelState s1 ch v := by
  unfold findChannelState
  rw [h]

theorem findChannelState_upsert_persist (s : Store) (cid : String) (b : BlobData)
    (ch v : String) (cs : ChannelStateNode) (h : findChannelState s ch v = some cs) :
    findChannelState (upsertChannelState s cid b) ch v = some cs := by
  unfold findChannelState
  rw [upsertChannelState_channelStates_char]
  split
  · split
    next heq => exact h
    next heq =>
      by_cases hkey : b.channel = ch ∧ b.version = v
      · exfalso
        rw [hkey.1, hkey.2] at heq
        rw [heq] at h
        exact Option.noConfusion h
      · rw [List.find?_cons_of_neg _ (by simpa using hkey)]
        exact h
  · exact h

theorem findChannelState_upsert_none_other (s : Store) (cid : String) (b : BlobData)
    (ch v : String) (h : findChannelState s ch v = none)
    (hkey : ¬(b.channel = ch ∧ b.version = v)) :
    findChannelState (upsertChannelState s cid b) ch v = none := by
  unfold findChannelState
  rw [upsertChannelState_channelStates_char]
  split
  · split
    next heq => exact h
    next heq =>
      rw [List.find?_cons_of_neg _ (by simpa using hkey)]
      exact h
  · exact h

theorem findChannelState_upsert_create (s : Store) (cid : String) (b : BlobData)
    (ch v : String) (h : findChannelState s ch v = none)
    (hcid : cid ∈ checkpointIds s) (hch : b.channel = ch) (hv : b.version = v) :
    findChannelState (upsertChannelState s cid b) ch v =
      some ⟨ch, v, b.payload⟩ := by
  unfold findChannelState
  rw [upsertChannelState_channelStates_char, if_pos hcid]
  have heq : findChannelState s b.channel b.version = none := by
    rw [hch, hv]
    exact h
  rw [heq]
  rw [List.find?_cons_of_pos _ (by simp [hch, hv])]
  rw [hch, hv]

theorem hasChannel_upsert_mono (s : Store) (cid : String) (b : BlobData)
    (e : String × String × String) (h : e ∈ s.hasChannel) :
    e ∈ (upsertChannelState s cid b).hasChannel := by
  rw [upsertChannelState_hasChannel_char]
  split
  · exact List.mem_cons_of_mem _ h
  · exact h

theorem hasChannel_upsert_self (s : Store) (cid : String) (b : BlobData)
    (hcid : cid ∈ checkpointIds s) :
    (cid, b.channel, b.version) ∈ (upsertChannelState s cid b).hasChannel := by
  rw [upsertChannelState_hasChannel_char, if_pos hcid]
  exact List.mem_cons_self _ _

theorem foldl_findCS_persist (cid : String) (blobs : List BlobData) (s : Store)
    (ch v : String) (cs : ChannelStateNode) (h : findChannelState s ch v = some cs) :
    findChannelState (blobs.foldl (fun acc b => upsertChannelState acc cid b) s) ch v =
      some cs := by
  induction blobs generalizing s with
  | nil => exact h
  | cons b tl ih =>
    rw [List.foldl_cons]
    exact ih _ (findChannelState_upsert_persist s cid b ch v cs h)

theorem foldl_hasChannel_mono (cid : String) (blobs : List BlobData) (s : Store)
    (e : String × String × String) (h : e ∈ s.hasChannel) :
    e ∈ (blobs.foldl (fun acc b => upsertChannelState acc cid b) s).hasChannel := by
  induction blobs generalizing s with
  | nil => exact h
  | cons b tl ih =>
    rw [List.foldl_cons]
    exact ih _ (hasChannel_upsert_mono s cid b e h)

theorem foldl_adds_edge (cid : String) (blobs : List BlobData) (s : Store)
    (ch v : String) (b : BlobData)
    (hfind : blobs.find? (fun b2 => decide (b2.channel = ch ∧ b2.version = v)) = some b)
    (hcid : cid ∈ checkpointIds s) :
    (cid, ch, v) ∈ (blobs.foldl (fun acc b => upsertChannelState acc cid b) s).hasChannel := by
  induction blobs generalizing s with
  | nil => exact absurd hfind (by simp)
  | cons b0 tl ih =>
    rw [List.foldl_cons]
    by_cases hkey : b0.channel = ch ∧ b0.version = v
    · apply foldl_hasChannel_mono
      have hself := hasChannel_upsert_self s cid b0 hcid
      rw [hkey.1, hkey.2] at hself
      exact hself
    · have hfind2 : tl.find? (fun b2 => decide (b2.channel = ch ∧ b2.version = v)) =
          some b := by
        rw [List.find?_cons_of_neg _ (by simpa using hkey)] at hfind
        exact hfind
      refine ih _ hfind2 ?_
      unfold checkpointIds at hcid ⊢
      rw [upsertChannelState_checkpoints]
      exact hcid

theorem foldl_first_writer_node (cid : String) (blobs : List BlobData) (s : Store)
    (ch v : String) (b : BlobData)
    (hfind : blobs.find? (fun b2 => decide (b2.channel = ch ∧ b2.version = v)) = some b)
    (hnone : findChannelState s ch v = none) (hcid : cid ∈ checkpointIds s) :
    findChannelState (blobs.foldl (fun acc b => upsertChannelState acc cid b) s) ch v =
      some ⟨ch, v, b.payload⟩ := by
  induction blobs generalizing s with
  | nil => exact absurd hfind (by simp)
  | cons b0 tl ih =>
    rw [List.foldl_cons]
    by_cases hkey : b0.channel = ch ∧ b0.version = v
    · have hb : b = b0 := by
        rw [List.find?_cons_of_pos _ (by simpa using hkey)] at hfind
        exact (Option.some_inj.mp hfind).symm
      subst hb
      apply foldl_findCS_persist
      exact findChannelState_upsert_create s cid b ch v hnone hcid hkey.1 hkey.2
    · have hfind2 : tl.find? (fun b2 => decide (b2.channel = ch ∧ b2.version = v)) =
          some b := by
        rw [List.find?_cons_of_neg _ (by simpa using hkey)] at hfind
        exact hfind
      refine ih _ hfind2 ?_ ?_
      · exact findChannelState_upsert_none_other s cid b0 ch v hnone hkey
      · unfold checkpointIds at hcid ⊢
        rw [upsertChannelState_checkpoints]
        exact hcid

theorem foldl_none_of_no_match (cid : String) (blobs : List BlobData) (s : Store)
    (ch v : String)
    (hno : blobs.find? (fun b2 => decide (b2.channel = ch ∧ b2.version = v)) = none)
    (hnone : findChannelState s ch v = none) :
    findChannelState (blobs.foldl (fun acc b => upsertChannelState acc cid b) s) ch v =
      none := by
  induction blobs generalizing s with
  | nil => exact hnone
  | cons b0 tl ih
 =>
    rw [List.foldl_cons]
    have hp := List.find?_eq_none.mp hno
    refine ih _ ?_ ?_
    · rw [List.find?_eq_none]
      intro x hx
      exact hp x (List.mem_cons_of_mem _ hx)
    · refine findChannelState_upsert_none_other s cid b0 ch v hnone ?_
      have := hp b0 (List.mem_cons_self _ _)
      simpa using this

theorem putM_channels_shape (S : Saver) (cfg : RunnableConfig) (cp : Checkpoint)
    (md : Metadata) (nv : List (String × String)) (bid : String) (s : Store)
    (tid : String) (h1 : cfg.thread_id = some tid) (htid : tid ≠ "")
    (h2 : cp.id ∉ checkpointIds s) (h3 : bid ∉ branchIds s) :
    ∃ s2,
      (putM S cfg cp md nv bid s).1.channelStates =
        ((dumpBlobs S cp.channel_values cp.channel_versions).foldl
          (fun acc b => upsertChannelState acc cp.id b) s2).channelStates ∧
      (putM S cfg cp md nv bid s).1.hasChannel =
        ((dumpBlobs S cp.channel_values cp.channel_versions).foldl
          (fun acc b => upsertChannelState acc cp.id b) s2).hasChannel ∧
      s2.channelStates = s.channelStates ∧ s2.hasChannel = s.hasChannel ∧
      cp.id ∈ checkpointIds s2 := by
  have hparse := parseConfig_ok cfg tid h1 htid
  rcases hE : upsertCheckpointSimple s ⟨tid, cfg.checkpoint_ns.getD ""⟩ cp.id
      (dumpCheckpoint S cp) (dumpMetadata S md) with ⟨s1, err⟩
  obtain ⟨e0, _, hc, _, _, hcs1, hch1, hb, _, _⟩ :=
    upsertCheckpointSimple_ok s ⟨tid, cfg.checkpoint_ns.getD ""⟩ cp.id
      (dumpCheckpoint S cp) (dumpMetadata S md) h2
  rw [hE] at e0 hc hcs1 hch1 hb
  simp only at e0 hc hcs1 hch1 hb
  cases err with
  | some e => exact absurd e0 (by simp)
  | none =>
  unfold putM
  rw [hparse]
  dsimp only
  rw [hE]
  dsimp only
  set tk : ThreadKey := (⟨tid, cfg.checkpoint_ns.getD ""⟩ : ThreadKey) with htk
  set s2 := (if truthy cfg.checkpoint_id = true then
      linkParentCheckpoint s1 cp.id (cfg.checkpoint_id.getD "") else s1) with hs2
  have hcs2 : s2.channelStates = s.channelStates := by
    rw [hs2]
    split
    · rw [linkParentCheckpoint_channelStates, hcs1]
    · exact hcs1
  have hch2 : s2.hasChannel = s.hasChannel := by
    rw [hs2]
    split
    · rw [linkParentCheckpoint_hasChannel, hch1]
    · exact hch1
  have hid2 : cp.id ∈ checkpointIds s2 := by
    unfold checkpointIds
    have hc2 : s2.checkpoints = s1.checkpoints := by
      rw [hs2]
      split
      · exact linkParentCheckpoint_checkpoints _ _ _
      · rfl
    rw [hc2, hc, List.map_cons]
    exact List.mem_cons_self _ _
  have hb2 : bid ∉ branchIds s2 := by
    unfold branchIds at h3 ⊢
    have : s2.branches = s1.branches := by
      rw [hs2]
      split
      · exact linkParentCheckpoint_branches _ _ _
      · rfl
    rw [this, hb]
    exact h3
  set s3 := List.foldl (fun acc b => upsertChannelState acc cp.id b) s2
      (dumpBlobs S cp.channel_values cp.channel_versions) with hs3
  have hb3 : bid ∉ branchIds s3 := by
    unfold branchIds at hb2 ⊢
    rw [hs3, foldlUpsertCS_branches]
    exact hb2
  rcases hE2 : (if threadHasBranches s3 tk = some 0 then createMainBranch s3 tk bid
      else (s3, none)) with ⟨s4, e4⟩
  have he4 : e4 = none := by
    have hx : (if threadHasBranches s3 tk = some 0 then createMainBranch s3 tk bid
        else (s3, none)).2 = none := by
      split
      · exact createMainBranch_noErr _ _ _ hb3
      · rfl
    rw [hE2] at hx
    exact hx
  subst he4
  have h4eq : s4 = (if threadHasBranches s3 tk = some 0 then createMainBranch s3 tk bid
      else (s3, none)).1 := by rw [hE2]
  have h4cs : s4.channelStates = s3.channelStates := by
    rw [h4eq]
    split
    · exact createMainBranch_channelStates _ _ _
    · rfl
  have h4ch : s4.hasChannel = s3.hasChannel := by
    rw [h4eq]
    split
    · exact createMainBranch_hasChannel _ _ _
    · rfl
  dsimp only
  refine ⟨s2, ?_, ?_, hcs2, hch2, hid2⟩
  · rw [updateBranchHead_channelStates, h4cs, hs3]
  · rw [updateBranchHead_hasChannel, h4ch, hs3]

/-- **C7.** For every two `put` calls that write channel values under
the same `(channel, version)` key, the stored `ChannelState` blob and
type remain those of the first writer (`MERGE ... ON CREATE SET` never
overwrites), the second write never overwrites them, and both
checkpoints link via `HAS_CHANNEL` to the one shared node; while a
second write differing only in version creates its own distinct
`(channel, version2)` node carrying the second writer blob (last
conjunct — the two keys differ, so the two stored blobs are distinct
entries). -/
theorem C7_first_writer_wins (S : Saver) (cfg1 cfg2 : RunnableConfig)
    (cp1 cp2 : Checkpoint) (md1 md2 : Metadata) (nv1 nv2 : List (String × String))
    (bid1 bid2 : String) (s0 : Store) (tid1 tid2 ch v : String) (b1 b2 : BlobData)
    (h11 : cfg1.thread_id = some tid1) (h12 : tid1 ≠ "")
    (h13 : cp1.id ∉ checkpointIds s0) (h14 : bid1 ∉ branchIds s0)
    (h21 : cfg2.thread_id = some tid2) (h22 : tid2 ≠ "")
    (h23 : cp2.id ∉ checkpointIds (putM S cfg1 cp1 md1 nv1 bid1 s0).1)
    (h24 : bid2 ∉ branchIds (putM S cfg1 cp1 md1 nv1 bid1 s0).1)
    (hfresh : findChannelState s0 ch v = none)
    (hb1 : (dumpBlobs S cp1.channel_values cp1.channel_versions).find?
        (fun b => decide (b.channel = ch ∧ b.version = v)) = some b1)
    (hb2 : (dumpBlobs S cp2.channel_values cp2.channel_versions).find?
        (fun b => decide (b.channel = ch ∧ b.version = v)) = some b2) :
    findChannelState (putM S cfg2 cp2 md2 nv2 bid2
        (putM S cfg1 cp1 md1 nv1 bid1 s0).1).1 ch v = some ⟨ch, v, b1.payload⟩ ∧
    (cp1.id, ch, v) ∈ (putM S cfg2 cp2 md2 nv2 bid2
        (putM S cfg1 cp1 md1 nv1 bid1 s0).1).1.hasChannel ∧
    (cp2.id, ch, v) ∈ (putM S cfg2 cp2 md2 nv2 bid2
        (putM S cfg1 cp1 md1 nv1 bid1 s0).1).1.hasChannel ∧
    (∀ v2 b2x, v2 ≠ v →
      findChannelState s0 ch v2 = none →
      (dumpBlobs S cp1.channel_values cp1.channel_versions).find?
        (fun b => decide (b.channel = ch ∧ b.version = v2)) = none →
      (dumpBlobs S cp2.channel_values cp2.channel_versions).find?
        (fun b => decide (b.channel = ch ∧ b.version = v2)) = some b2x →
      findChannelState (putM S cfg2 cp2 md2 nv2 bid2
          (putM S cfg1 cp1 md1 nv1 bid1 s0).1).1 ch v2 = some ⟨ch, v2, b2x.payload⟩) := by
  obtain ⟨sA, hcsA, hchA, hcsA0, hchA0, hidA⟩ :=
    putM_channels_shape S cfg1 cp1 md1 nv1 bid1 s0 tid1 h11 h12 h13 h14
  obtain ⟨sB, hcsB, hchB, hcsB1, hchB1, hidB⟩ :=
    putM_channels_shape S cfg2 cp2 md2 nv2 bid2 (putM S cfg1 cp1 md1 nv1 bid1 s0).1
      tid2 h21 h22 h23 h24
  have hf1 : findChannelState (putM S cfg1 cp1 md1 nv1 bid1 s0).1 ch v =
      some ⟨ch, v, b1.payload⟩ := by
    have hbase : findChannelState sA ch v = none := by
      rw [findChannelState_congr hcsA0]
      exact hfresh
    rw [findChannelState_congr hcsA]
    exact foldl_first_writer_node cp1.id _ sA ch v b1 hb1 hbase hidA
  have he1 : (cp1.id, ch, v) ∈ (putM S cfg1 cp1 md1 nv1 bid1 s0).1.hasChannel := by
    rw [hchA]
    exact foldl_adds_edge cp1.id _ sA ch v b1 hb1 hidA
  refine ⟨?_, ?_, ?_, ?_⟩
  · rw [findChannelState_congr hcsB]
    apply foldl_findCS_persist
    rw [findChannelState_congr hcsB1]
    exact hf1
  · rw [hchB]
    apply foldl_hasChannel_mono
    rw [hchB1]
    exact he1
  · rw [hchB]
    exact foldl_adds_edge cp2.id _ sB ch v b2 hb2 hidB
  · intro v2 b2x _hne hfresh2 hno1 hsome2
    have hf1n : findChannelState (putM S cfg1 cp1 md1 nv1 bid1 s0).1 ch v2 = none := by
      rw [findChannelState_congr hcsA]
      refine foldl_none_of_no_match cp1.id _ sA ch v2 hno1 ?_
      rw [findChannelState_congr hcsA0]
      exact hfresh2
    rw [findChannelState_congr hcsB]
    refine foldl_first_writer_node cp2.id _ sB ch v2 b2x hsome2 ?_ hidB
    rw [findChannelState_congr hcsB1]
    exact hf1n

/-- A second concrete checkpoint writing the same `(ch, v1)` key with a
different value. -/
def cp2Ex : Checkpoint := ⟨1, "c2", "ts2", [("ch", .vStr "world")], [("ch", "v1")]⟩

/-- A config for the second `put`, carrying `c1` as parent. -/
def cfg2Ex : RunnableConfig := ⟨some "t1", some "", some "c1"⟩

/-- Witness for C7 on closed inputs. -/
theorem C7_witness :
    findChannelState (putM saverEx cfg2Ex cp2Ex mdEx [] "b2"
        (putM saverEx cfgEx cpEx mdEx [] "b1" emptyStore).1).1 "ch" "v1" =
      some ⟨"ch", "v1", BlobData.payload ⟨"ch", "v1", .json (.vStr "hello")⟩⟩ ∧
    ("c1", "ch", "v1") ∈ (putM saverEx cfg2Ex cp2Ex mdEx [] "b2"
        (putM saverEx cfgEx cpEx mdEx [] "b1" emptyStore).1).1.hasChannel ∧
    ("c2", "ch", "v1") ∈ (putM saverEx cfg2Ex cp2Ex mdEx [] "b2"
        (putM saverEx cfgEx cpEx mdEx [] "b1" emptyStore).1).1.hasChannel ∧
    (∀ v2 b2x, v2 ≠ "v1" →
      findChannelState emptyStore "ch" v2 = none →
      (dumpBlobs saverEx cpEx.channel_values cpEx.channel_versions).find?
        (fun b => decide (b.channel = "ch" ∧ b.version = v2)) = none →
      (dumpBlobs saverEx cp2Ex.channel_values cp2Ex.channel_versions).find?
        (fun b => decide (b.channel = "ch" ∧ b.version = v2)) = some b2x →
      findChannelState (putM saverEx cfg2Ex cp2Ex mdEx [] "b2"
          (putM saverEx cfgEx cpEx mdEx [] "b1" emptyStore).1).1 "ch" v2 =
        some ⟨"ch", v2, b2x.payload⟩) :=
  C7_first_writer_wins saverEx cfgEx cfg2Ex cpEx cp2Ex mdEx mdEx [] [] "b1" "b2"
    emptyStore "t1" "t1" "ch" "v1" ⟨"ch", "v1", .json (.vStr "hello")⟩
    ⟨"ch", "v1", .json (.vStr "world")⟩ rfl (by decide)
    (by simp [checkpointIds, emptyStore]) (by simp [branchIds, emptyStore])
    rfl (by decide) (by decide) (by decide) rfl rfl rfl

/-- A concrete reachable store (one `put` of `cpEx`). -/
def storeEx : Store := applyOp saverEx emptyStore (.opPut cfgEx cpEx mdEx [] "b1")

/-- The checkpoint node stored by that `put`. -/
def cnEx : CheckpointNode := ⟨"c1", .json cpEx, .json mdEx⟩

/-- Witness for C2 at the concrete reachable store, instantiated at the
one row the query fetches. -/
theorem C2_witness :
    listLookup (loadCheckpoint saverEx cnEx.payload).channel_versions
      (ChannelStateNode.channel ⟨"ch", "v1", .json (.vStr "hello")⟩) =
      some (ChannelStateNode.version ⟨"ch", "v1", .json (.vStr "hello")⟩) :=
  C2_channel_states_exact_match saverEx storeEx strSerdeCp_roundTrips
    (Reachable.step _ Reachable.empty) cnEx (by constructor)
    ⟨"ch", "v1", .json (.vStr "hello")⟩ (by constructor)

/-- The checkpoint ids yielded by one `list` query. -/
def listIds (s : Store) (tk : ThreadKey) (beforeId : Option String) (limitN : Nat) :
    List String :=
  (listCheckpointsQ s tk beforeId limitN).map (·.checkpoint_id)

theorem listCheckpointsQ_props (s : Store) (tk : ThreadKey) (beforeId : Option String)
    (limitN : Nat) (hnodup : NodupCkInv s) :
    List.Pairwise (fun a b => b < a) (listIds s tk beforeId limitN) ∧
    (listIds s tk beforeId limitN).length ≤ limitN ∧
    (∀ bid2, beforeId = some bid2 → ∀ i ∈ listIds s tk beforeId limitN, i < bid2) ∧
    (∀ cn ∈ s.checkpoints, tk ∈ s.threads →
      (tk, cn.checkpoint_id) ∈ s.hasCheckpoint →
      (∀ bid2, beforeId = some bid2 → cn.checkpoint_id < bid2) →
      cn.checkpoint_id ∉ listIds s tk beforeId limitN →
      (listIds s tk beforeId limitN).length = limitN ∧
      ∀ i ∈ listIds s tk beforeId limitN, cn.checkpoint_id < i) := by
  unfold listIds listCheckpointsQ
  by_cases hmem : tk ∈ s.threads
  case neg =>
    rw [if_neg hmem]
    refine ⟨List.Pairwise.nil, by simp, by simp, ?_⟩
    intro cn hcn hmem2
    exact absurd hmem2 hmem
  case pos =>
    rw [if_pos hmem]
    dsimp only
    rw [List.map_map]
    have hcomp : ((fun (r : CheckpointRecord) => r.checkpoint_id) ∘ recordOfNode s tk) =
        (fun cn : CheckpointNode => cn.checkpoint_id) := rfl
    rw [hcomp]
    set pred : CheckpointNode → Bool := (fun cn =>
      match beforeId with
      | none => true
      | some b => decide (cn.checkpoint_id < b)) with hpred
    set matched := (threadCheckpoints s tk).filter pred with hmatched
    have hsubl : List.Sublist matched s.checkpoints :=
      (List.filter_sublist _).trans (List.filter_sublist _)
    have hnodupM : (matched.map (·.checkpoint_id)).Nodup :=
      List.Nodup.sublist (List.Sublist.map _ hsubl) hnodup
    set sorted := sortByIdDesc matched with hsortedDef
    have hperm : List.Perm sorted matched := List.perm_insertionSort _ _
    have hpw : List.Pairwise ckDesc sorted := List.sorted_insertionSort _ _
    have hnodupS : (sorted.map (·.checkpoint_id)).Nodup :=
      ((hperm.map (·.checkpoint_id)).symm).nodup hnodupM
    set taken := sorted.take limitN with htakenDef
    have htake : List.Sublist taken sorted := List.take_sublist _ _
    have hpwT : List.Pairwise ckDesc taken := hpw.sublist htake
    have hnodupT : (taken.map (·.checkpoint_id)).Nodup :=
      List.Nodup.sublist (List.Sublist.map _ htake) hnodupS
    have hpw2 : List.Pairwise
        (fun a b : CheckpointNode => b.checkpoint_id < a.checkpoint_id) taken := by
      have hne : List.Pairwise
          (fun a b : CheckpointNode => a.checkpoint_id ≠ b.checkpoint_id) taken :=
        (List.pairwise_map).mp hnodupT
      refine (hpwT.and hne).imp ?_
      rintro a b ⟨hle, hneq⟩
      exact lt_of_le_of_ne hle (fun hx => hneq hx.symm)
    refine ⟨(List.pairwise_map).mpr hpw2, ?_, ?_, ?_⟩
    · rw [List.length_map, htakenDef, List.length_take]
      exact min_le_left _ _
    · intro bid2 hbid i hi
      rw [List.mem_map] at hi
      obtain ⟨cn, hcn, rfl⟩ := hi
      have hcnm : cn ∈ matched := (hperm.subset) (htake.subset hcn)
      rw [hmatched, List.mem_filter] at hcnm
      have hp := hcnm.2
      rw [hpred] at hp
      dsimp only at hp
      rw [hbid] at hp
      exact of_decide_eq_true hp
    · intro cn hcn _ hedge hbefore hnot
      have hcnThread : cn ∈ threadCheckpoints s tk :=
        List.mem_filter.mpr ⟨hcn, decide_eq_true hedge⟩
      have hcnM : cn ∈ matched := by
        rw [hmatched, List.mem_filter]
        refine ⟨hcnThread, ?_⟩
        rw [hpred]
        dsimp only
        cases hb : beforeId with
        | none => rfl
        | some b => exact decide_eq_true (hbefore b hb)
      have hidS : cn.checkpoint_id ∈ sorted.map (·.checkpoint_id) :=
        List.mem_map.mpr ⟨cn, (hperm.symm.subset) hcnM, rfl⟩
      have hsplit : taken ++ sorted.drop limitN = sorted := by
        rw [htakenDef]
        exact List.take_append_drop _ _
      have hidD : cn.checkpoint_id ∈ (sorted.drop limitN).map (·.checkpoint_id) := by
        rw [← hsplit, List.map_append, List.mem_append] at hidS
        cases hidS with
        | inl hx => exact absurd hx hnot
        | inr hx => exact hx
      have hdropNe : sorted.drop limitN ≠ [] := by
        intro hx
        rw [hx] at hidD
        exact absurd hidD (by simp)
      have hlen : limitN < sorted.length := by
        by_contra hx
        push_neg at hx
        exact hdropNe (List.drop_eq_nil_of_le hx)
      constructor
      · rw [List.length_map, htakenDef, List.length_take]
        omega
      · intro i hi
        rw [List.mem_map] at hi
        obtain ⟨a, ha, rfl⟩ := hi
        rw [List.mem_map] at hidD
        obtain ⟨d, hd, hdid⟩ := hidD
        have hpwS : List.Pairwise ckDesc (taken ++ sorted.drop limitN) := by
          rw [hsplit]
          exact hpw
        have hrel := (List.pairwise_append.mp hpwS).2.2 a ha d hd
        have hle : cn.checkpoint_id ≤ a.checkpoint_id := by
          rw [← hdid]
          exact hrel
        refine lt_of_le_of_ne hle ?_
        intro hx
        have hnodupApp : ((taken ++ sorted.drop limitN).map (·.checkpoint_id)).Nodup := by
          rw [hsplit]
          exact hnodupS
        rw [List.map_append] at hnodupApp
        have hdisj := List.disjoint_of_nodup_append hnodupApp
        have hmemT : a.checkpoint_id ∈ taken.map (·.checkpoint_id) :=
          List.mem_map.mpr ⟨a, ha, rfl⟩
        have hmemD : a.checkpoint_id ∈ (sorted.drop limitN).map (·.checkpoint_id) := by
          rw [← hx, ← hdid]
          exact List.mem_map.mpr ⟨d, hd, rfl⟩
        exact hdisj hmemT hmemD

theorem upsertCheckpointSimple_nodup (s : Store) (tk : ThreadKey) (cid : String)
    (pay : StoredPayload Checkpoint) (mdp : StoredPayload Metadata)
    (h : NodupCkInv s) : NodupCkInv (upsertCheckpointSimple s tk cid pay mdp).1 := by
  have hchar := upsertCheckpointSimple_fst_checkpoints_char s tk cid pay mdp
  by_cases hmem : cid ∈ checkpointIds s
  · rw [if_pos hmem] at hchar
    exact nodupCkInv_congr hchar h
  · rw [if_neg hmem] at hchar
    unfold NodupCkInv checkpointIds at h ⊢
    rw [hchar, List.map_cons]
    exact List.Nodup.cons hmem h

theorem putM_nodupCk (S : Saver) (cfg : RunnableConfig) (cp : Checkpoint) (md : Metadata)
    (nv : List (String × String)) (bid : String) (s : Store) (h : NodupCkInv s) :
    NodupCkInv (putM S cfg cp md nv bid s).1 := by
  unfold putM
  split
  · exact h
  next pc heq =>
  dsimp only
  split
  next s1 e heq1 =>
    have hx : s1 = (upsertCheckpointSimple s ⟨pc.threadId, pc.checkpointNs⟩ cp.id
        (dumpCheckpoint S cp) (dumpMetadata S md)).1 := by rw [heq1]
    rw [hx]
    exact upsertCheckpointSimple_nodup s _ cp.id _ _ h
  next s1 heq1 =>
    have hx : s1 = (upsertCheckpointSimple s ⟨pc.threadId, pc.checkpointNs⟩ cp.id
        (dumpCheckpoint S cp) (dumpMetadata S md)).1 := by rw [heq1]
    have h1 : NodupCkInv s1 := by
      rw [hx]
      exact upsertCheckpointSimple_nodup s _ cp.id _ _ h
    have h2 : NodupCkInv (if truthy pc.checkpointId = true then
        linkParentCheckpoint s1 cp.id (pc.checkpointId.getD "") else s1) := by
      split
      · exact nodupCkInv_congr (linkParentCheckpoint_checkpoints _ _ _) h1
      · exact h1
    set s3 := List.foldl (fun acc b => upsertChannelState acc cp.id b)
        (if truthy pc.checkpointId = true then
          linkParentCheckpoint s1 cp.id (pc.checkpointId.getD "") else s1)
        (dumpBlobs S cp.channel_values cp.channel_versions) with hs3
    have h3 : NodupCkInv s3 := nodupCkInv_congr (foldlUpsertCS_checkpoints _ _ _) h2
    split
    next s4 e2 heq2 =>
      have hy : s4 = (if threadHasBranches s3 ⟨pc.threadId, pc.checkpointNs⟩ = some 0 then
          createMainBranch s3 ⟨pc.threadId, pc.checkpointNs⟩ bid else (s3, none)).1 := by
        rw [heq2]
      rw [hy]
      split
      · exact nodupCkInv_congr (createMainBranch_checkpoints _ _ _) h3
      · exact h3
    next s4 heq2 =>
      have h4 : NodupCkInv s4 := by
        have hy : s4 = (if threadHasBranches s3 ⟨pc.threadId, pc.checkpointNs⟩ = some 0 then
            createMainBranch s3 ⟨pc.threadId, pc.checkpointNs⟩ bid else (s3, none)).1 := by
          rw [heq2]
        rw [hy]
        split
        · exact nodupCkInv_congr (createMainBranch_checkpoints _ _ _) h3
        · exact h3
      exact nodupCkInv_congr (updateBranchHead_checkpoints _ _ _) h4

theorem reachable_nodupCk (S : Saver) {s : Store} (h : Reachable S s) : NodupCkInv s := by
  induction h with
  | empty => exact List.nodup_nil
  | step op hs ih =>
    cases op with
    | opPut cfg cp md nv bid => exact putM_nodupCk S cfg cp md nv bid _ ih
    | opPutWrites cfg writes taskId =>
      show NodupCkInv (putWritesM S cfg writes taskId _).1
      unfold putWritesM
      split
      · exact ih
      · dsimp only
        split
        · exact nodupCkInv_congr (foldlUpsertW_checkpoints _ _ _) ih
        · exact ih
    | opGetTuple cfg => exact ih
    | opList cfg before limit => exact ih
    | opDeleteThread tid =>
      show NodupCkInv (deleteThreadM _ tid)
      unfold deleteThreadM deleteOrphanChannelStatesQ deleteThreadQ
      unfold NodupCkInv checkpointIds at ih ⊢
      dsimp only
      exact List.Nodup.sublist (List.Sublist.map _ (List.filter_sublist _)) ih

theorem parseConfig_checkpointId {cfg : RunnableConfig} {pb : ParsedConfig}
    (h : parseConfig cfg = .ok pb) : pb.checkpointId = cfg.checkpoint_id := by
  unfold parseConfig at h
  split at h
  · cases h
    rfl
  · exact absurd h (by simp)

theorem parseConfig_threadId {cfg : RunnableConfig} {pc : ParsedConfig} {tid : String}
    (h : parseConfig cfg = .ok pc) (h1 : cfg.thread_id = some tid) :
    pc.threadId = tid := by
  unfold parseConfig at h
  split at h
  · cases h
    dsimp only
    rw [h1, Option.getD_some]
  · exact absurd h (by simp)

theorem parseConfig_checkpointNs {cfg : RunnableConfig} {pc : ParsedConfig}
    (h : parseConfig cfg = .ok pc) : pc.checkpointNs = cfg.checkpoint_ns.getD "" := by
  unfold parseConfig at h
  split at h
  · cases h
    rfl
  · exact absurd h (by simp)

theorem tuples_filterMap_ids (S : Saver) (rs : List CheckpointRecord) :
    (rs.map (fun r => makeCheckpointTuple S r [] [])).filterMap
      (fun t => t.config.checkpoint_id) = rs.map (·.checkpoint_id) := by
  induction rs with
  | nil => rfl
  | cons r tl ih =>
    show r.checkpoint_id ::
        (tl.map (fun r => makeCheckpointTuple S r [] [])).filterMap
          (fun t => t.config.checkpoint_id) =
      r.checkpoint_id :: tl.map (·.checkpoint_id)
    rw [ih]

theorem C8_core (S : Saver) (s : Store) (hnodup : NodupCkInv s) (tk : ThreadKey)
    (bid : Option String) (limitN : Nat) (tuples : List CheckpointTuple)
    (htup : tuples = (listCheckpointsQ s tk bid limitN).map
      (fun r => makeCheckpointTuple S r [] [])) :
    List.Pairwise (fun a b => b < a)
      (tuples.filterMap (fun t => t.config.checkpoint_id)) ∧
    (tuples.filterMap (fun t => t.config.checkpoint_id)).length ≤ limitN ∧
    (∀ bid2, bid = some bid2 →
      ∀ i ∈ tuples.filterMap (fun t => t.config.checkpoint_id), i < bid2) ∧
    (∀ cn ∈ s.checkpoints, tk ∈ s.threads →
      (tk, cn.checkpoint_id) ∈ s.hasCheckpoint →
      (∀ bid2, bid = some bid2 → cn.checkpoint_id < bid2) →
      cn.checkpoint_id ∉ tuples.filterMap (fun t => t.config.checkpoint_id) →
      (tuples.filterMap (fun t => t.config.checkpoint_id)).length = limitN ∧
      ∀ i ∈ tuples.filterMap (fun t => t.config.checkpoint_id),
        cn.checkpoint_id < i) := by
  subst htup
  rw [tuples_filterMap_ids]
  exact listCheckpointsQ_props s tk bid limitN hnodup

/-- **C8.** For every thread, `list` yields that thread checkpoint
tuples in strictly descending `checkpointId` order with no duplicates
and no gaps: (i) the yielded ids are pairwise strictly decreasing,
(ii) at most `limit` tuples are yielded and `limit` defaults to 100 when
unspecified (first conjunct: the two calls are equal), (iii) with a
`before` cursor only ids strictly less than it are yielded, and (iv) no
gaps: any checkpoint of the thread passing the `before` filter that is
not yielded can only have been cut by the limit — the output is then
exactly `limit` long and every yielded id is strictly greater. -/
theorem C8_list_ordering (S : Saver) (s : Store) (hs : Reachable S s)
    (cfg : RunnableConfig) (before : Option RunnableConfig) (limit : Option Nat)
    (tuples : List CheckpointTuple)
    (h : listM S cfg before limit s = .ok tuples) :
    (listM S cfg before none s = listM S cfg before (some 100) s) ∧
    List.Pairwise (fun a b => b < a)
      (tuples.filterMap (fun t => t.config.checkpoint_id)) ∧
    (tuples.filterMap (fun t => t.config.checkpoint_id)).length ≤ limit.getD 100 ∧
    (∀ bc bid2, before = some bc → bc.checkpoint_id = some bid2 →
      ∀ i ∈ tuples.filterMap (fun t => t.config.checkpoint_id), i < bid2) ∧
    (∀ tid, cfg.thread_id = some tid →
      ∀ cn ∈ s.checkpoints,
        (⟨tid, cfg.checkpoint_ns.getD ""⟩ : ThreadKey) ∈ s.threads →
        ((⟨tid, cfg.checkpoint_ns.getD ""⟩ : ThreadKey), cn.checkpoint_id) ∈
          s.hasCheckpoint →
        (∀ bc bid2, before = some bc → bc.checkpoint_id = some bid2 →
          cn.checkpoint_id < bid2) →
        cn.checkpoint_id ∉ tuples.filterMap (fun t => t.config.checkpoint_id) →
        (tuples.filterMap (fun t => t.config.checkpoint_id)).length = limit.getD 100 ∧
        ∀ i ∈ tuples.filterMap (fun t => t.config.checkpoint_id),
          cn.checkpoint_id < i) := by
  have hnodup := reachable_nodupCk S hs
  refine ⟨rfl, ?_⟩
  unfold listM at h
  cases hpc : parseConfig cfg with
  | error e =>
    rw [hpc] at h
    exact absurd h (by simp)
  | ok pc =>
  rw [hpc] at h
  dsimp only at h
  cases before with
  | none =>
    dsimp only at h
    have htup : tuples = (listCheckpointsQ s ⟨pc.threadId, pc.checkpointNs⟩ none
        (limit.getD 100)).map (fun r => makeCheckpointTuple S r [] []) := by
      cases h
      rfl
    obtain ⟨hc1, hc2, _, hc4⟩ :=
      C8_core S s hnodup ⟨pc.threadId, pc.checkpointNs⟩ none (limit.getD 100) tuples htup
    refine ⟨hc1, hc2, ?_, ?_⟩
    · intro bc bid2 hbc
      exact absurd hbc (by simp)
    · intro tid h1 cn hcn hthr hedge _ hnot
      have htk : (⟨tid, cfg.checkpoint_ns.getD ""⟩ : ThreadKey) =
          ⟨pc.threadId, pc.checkpointNs⟩ := by
        rw [parseConfig_threadId hpc h1, parseConfig_checkpointNs hpc]
      rw [htk] at hthr hedge
      exact hc4 cn hcn hthr hedge (fun bid2 hb => absurd hb (by simp)) hnot
  | some bc =>
    dsimp only at h
    cases hpb : parseConfig bc with
    | error e =>
      rw [hpb] at h
      dsimp only at h
      exact absurd h (by simp)
    | ok pb =>
      rw [hpb] at h
      dsimp only at h
      have htup : tuples = (listCheckpointsQ s ⟨pc.threadId, pc.checkpointNs⟩
          pb.checkpointId (limit.getD 100)).map (fun r => makeCheckpointTuple S r [] []) := by
        cases h
        rfl
      obtain ⟨hc1, hc2, hc3, hc4⟩ :=
        C8_core S s hnodup ⟨pc.threadId, pc.checkpointNs⟩ pb.checkpointId
          (limit.getD 100) tuples htup
      refine ⟨hc1, hc2, ?_, ?_⟩
      · intro bc2 bid2 hbc hbid
        cases hbc
        refine hc3 bid2 ?_
        rw [parseConfig_checkpointId hpb]
        exact hbid
      · intro tid h1 cn hcn hthr hedge hbefore hnot
        have htk : (⟨tid, cfg.checkpoint_ns.getD ""⟩ : ThreadKey) =
            ⟨pc.threadId, pc.checkpointNs⟩ := by
          rw [parseConfig_threadId hpc h1, parseConfig_checkpointNs hpc]
        rw [htk] at hthr hedge
        refine hc4 cn hcn hthr hedge ?_ hnot
        intro bid2 hb
        refine hbefore bc bid2 rfl ?_
        rw [← parseConfig_checkpointId hpb]
        exact hb

/-- A concrete reachable store holding two checkpoints of thread `t1`. -/
def storeEx2 : Store :=
  applyOp saverEx (applyOp saverEx emptyStore (.opPut cfgEx cpEx mdEx [] "b1"))
    (.opPut cfg2Ex ⟨1, "c2", "ts2", [], []⟩ mdEx [] "b2")

/-- The tuples yielded by `list` on that store. -/
def listTuplesEx : List CheckpointTuple :=
  (listCheckpointsQ storeEx2 ⟨"t1", ""⟩ none 100).map
    (fun r => makeCheckpointTuple saverEx r [] [])

/-- Witness for C8 at the concrete reachable store. -/
theorem C8_witness :
    (listM saverEx cfgEx none none storeEx2 = listM saverEx cfgEx none (some 100) storeEx2) ∧
    List.Pairwise (fun a b => b < a)
      (listTuplesEx.filterMap (fun t => t.config.checkpoint_id)) ∧
    (listTuplesEx.filterMap (fun t => t.config.checkpoint_id)).length ≤
      (none : Option Nat).getD 100 ∧
    (∀ bc bid2, (none : Option RunnableConfig) = some bc → bc.checkpoint_id = some bid2 →
      ∀ i ∈ listTuplesEx.filterMap (fun t => t.config.checkpoint_id), i < bid2) ∧
    (∀ tid, cfgEx.thread_id = some tid →
      ∀ cn ∈ storeEx2.checkpoints,
        (⟨tid, cfgEx.checkpoint_ns.getD ""⟩ : ThreadKey) ∈ storeEx2.threads →
        ((⟨tid, cfgEx.checkpoint_ns.getD ""⟩ : ThreadKey), cn.checkpoint_id) ∈
          storeEx2.hasCheckpoint →
        (∀ bc bid2, (none : Option RunnableConfig) = some bc →
          bc.checkpoint_id = some bid2 → cn.checkpoint_id < bid2) →
        cn.checkpoint_id ∉ listTuplesEx.filterMap (fun t => t.config.checkpoint_id) →
        (listTuplesEx.filterMap (fun t => t.config.checkpoint_id)).length =
          (none : Option Nat).getD 100 ∧
        ∀ i ∈ listTuplesEx.filterMap (fun t => t.config.checkpoint_id),
          cn.checkpoint_id < i) :=
  C8_list_ordering saverEx storeEx2
    (Reachable.step _ (Reachable.step _ Reachable.empty)) cfgEx none none
    listTuplesEx rfl
